import Mathlib

/-!
Shallow embedding of the stackai-vector-db core (similarity kernel, linear and
KD-tree indexes, query engine, catalog repository and service-level
validation), with theorems checking the specification's claims against it.

Conventions of the embedding:
* IEEE floats are modelled by `ℝ`; `numpy.linalg.norm v` is `Real.sqrt (sumSq v)`.
* Python exceptions are modelled by `Except VErr` (or a `× Option VErr` pair
  when the source mutates part of its state before raising).
* Python's stable `list.sort(key=...)` is rendered as `List.insertionSort`
  with the non-strict `≤` on the key, which is also stable, hence produces
  the same list.
* UUIDs and datetimes are opaque to the core logic and are modelled by `Nat`.
* Python dicts are modelled by association lists whose keys stay distinct.
-/

namespace VecDB

/-- Error kinds raised by the core (ValueErrors in the source, discriminated
here by raise site following the spec's error taxonomy; `typeError` covers the
runtime errors CPython raises inside the metadata evaluator: TypeError on
unordered operand pairs or non-container `in` operands, AttributeError on a
missing `.lower()`/`.get()`, `re.error` on a malformed pattern). -/
inductive VErr where
  | invalidMetric
  | shapeMismatch
  | emptyQuery
  | dimensionMismatch
  | zeroDivision
  | unknownVariant
  | validation
  | alreadyExists
  | typeError
deriving DecidableEq

/-- JSON-like metadata values (string keys to nested values), as stored in the
`metadata` mapping of the entities. Numbers are modelled by `ℚ`. -/
inductive JVal where
  | s (v : String)
  | n (v : ℚ)
  | b (v : Bool)
  | null
  | arr (vs : List JVal)
  | obj (fields : List (String × JVal))

mutual

/-- Equality test on metadata values (Python `==`, which never raises on
JSON-derived values). Python's `bool` is an `int` subtype, so `True == 1` and
`False == 0` hold across the two constructors. -/
def jeq : JVal → JVal → Bool
  | .s a, .s b => a == b
  | .n a, .n b => a == b
  | .b a, .b b => a == b
  | .b a, .n b => (if a then (1 : ℚ) else 0) == b
  | .n a, .b b => a == (if b then (1 : ℚ) else 0)
  | .null, .null => true
  | .arr a, .arr b => jeqList a b
  | .obj a, .obj b => jeqObj a b
  | _, _ => false

/-- Elementwise equality of metadata value lists. -/
def jeqList : List JVal → List JVal → Bool
  | [], [] => true
  | a :: as, b :: bs => jeq a b && jeqList as bs
  | _, _ => false

/-- Elementwise equality of metadata objects. -/
def jeqObj : List (String × JVal) → List (String × JVal) → Bool
  | [], [] => true
  | (ka, va) :: as, (kb, vb) :: bs => ka == kb && jeq va vb && jeqObj as bs
  | _, _ => false

end

/-- Chunk entity (src/app/models/chunk.py): id, parent document id, text,
embedding vector, metadata, timestamps. -/
structure Chunk where
  id : Nat
  documentId : Nat
  text : String
  embedding : List ℝ
  metadata : List (String × JVal)
  createdAt : Nat
  updatedAt : Nat

instance : Inhabited Chunk := ⟨⟨0, 0, "", [], [], 0, 0⟩⟩

/-- Result of a vector similarity search (VectorSearchResult). -/
structure SearchHit where
  chunk : Chunk
  distance : ℝ
  similarity : ℝ

/-! ## Similarity kernel (BaseIndex._calculate_similarity, src/app/indexes/base.py) -/

/-- Sum of squares of a vector's entries: the square of `np.linalg.norm`. -/
def sumSq (v : List ℝ) : ℝ := (v.map (fun x => x * x)).sum

/-- Dot product of two equal-length vectors (`np.dot`). -/
def dotp (u v : List ℝ) : ℝ := (List.zipWith (· * ·) u v).sum

/-- Pointwise vector difference (numpy `v1 - v2`). -/
def subV (u v : List ℝ) : List ℝ := List.zipWith (· - ·) u v

/-- Shallow embedding of `BaseIndex._calculate_similarity`. The zero-norm
early return fires before the metric is dispatched. numpy raises a shape
error when `np.dot` or vector subtraction is applied to vectors of different
lengths; that exception is reachable only past the zero-norm check and is
modelled by `shapeMismatch`. An unknown metric raises (`invalidMetric`). -/
noncomputable def calcSim (v1 v2 : List ℝ) (metric : String) : Except VErr (ℝ × ℝ) :=
  if Real.sqrt (sumSq v1) = 0 ∨ Real.sqrt (sumSq v2) = 0 then .ok (1, 0)
  else if metric = "cosine" then
    if v1.length = v2.length then
      let similarity := dotp v1 v2 / (Real.sqrt (sumSq v1) * Real.sqrt (sumSq v2))
      .ok (1 - similarity, similarity)
    else .error .shapeMismatch
  else if metric = "euclidean" then
    if v1.length = v2.length then
      let distance := Real.sqrt (sumSq (subV v1 v2))
      .ok (distance, 1 / (1 + distance))
    else .error .shapeMismatch
  else if metric = "dot_product" then
    if v1.length = v2.length then
      let similarity := dotp v1 v2
      .ok (-similarity, similarity)
    else .error .shapeMismatch
  else .error .invalidMetric

/-! ## Ordering of search hits by distance -/

/-- Comparison used by every `sort(key=lambda x: x.distance)` in the source. -/
def hitLe (a b : SearchHit) : Prop := a.distance ≤ b.distance

noncomputable instance : DecidableRel hitLe :=
  fun a b => inferInstanceAs (Decidable (a.distance ≤ b.distance))

instance : IsTotal SearchHit hitLe := ⟨fun a b => le_total a.distance b.distance⟩

instance : IsTrans SearchHit hitLe := ⟨fun _ _ _ h1 h2 => le_trans h1 h2⟩

/-! ## Linear index (BruteForceIndex, src/app/indexes/brute_force.py) -/

/-- State of a BruteForceIndex instance. -/
structure BFState where
  similarityMetric : String := "cosine"
  indexedChunks : List Chunk := []
  isBuilt : Bool := false

/-- `BruteForceIndex.index`: snapshot the chunk list, set the built flag.
No dimension validation is performed. -/
def bfIndex (s : BFState) (chunks : List Chunk) : BFState :=
  { s with indexedChunks := chunks, isBuilt := true }

/-- `BruteForceIndex.search`: linear scan; per-chunk kernel failures are
swallowed (`except Exception: continue`), results sorted ascending by
distance, first `min k n` returned. -/
noncomputable def bfSearch (s : BFState) (query : List ℝ) (k : Nat)
    (metricOv : Option String) : Except VErr (List SearchHit) :=
  if s.isBuilt = false ∨ s.indexedChunks.isEmpty = true then .ok []
  else if query = [] then .error .emptyQuery
  else if min k s.indexedChunks.length = 0 then .ok []
  else
    .ok (((s.indexedChunks.filterMap (fun c =>
      match calcSim query c.embedding (metricOv.getD s.similarityMetric) with
      | .ok (d, sim) => some ⟨c, d, sim⟩
      | .error _ => none)).insertionSort hitLe).take (min k s.indexedChunks.length))

/-! ## KD-tree index (KDTreeIndex, src/app/indexes/kdtree.py) -/

/-- KD-tree shape: `leaf` models a `None` child pointer. -/
inductive KDTree where
  | leaf
  | node (left : KDTree) (chunk : Chunk) (axis : Nat) (right : KDTree)

/-- Axis coordinate of a chunk's embedding (`chunk.embedding[axis]`; in-range
whenever build-time validation passed, so the default is never consulted). -/
def axKey (axis : Nat) (c : Chunk) : ℝ := c.embedding.getD axis 0

/-- Sorting relation of `chunks.sort(key=lambda chunk: chunk.embedding[axis])`. -/
def axLe (axis : Nat) (a b : Chunk) : Prop := axKey axis a ≤ axKey axis b

noncomputable instance (axis : Nat) : DecidableRel (axLe axis) :=
  fun a b => inferInstanceAs (Decidable (axKey axis a ≤ axKey axis b))

instance (axis : Nat) : IsTotal Chunk (axLe axis) :=
  ⟨fun a b => le_total (axKey axis a) (axKey axis b)⟩

instance (axis : Nat) : IsTrans Chunk (axLe axis) :=
  ⟨fun _ _ _ h1 h2 => le_trans h1 h2⟩

/-- `KDTreeIndex._build_tree`: sort by the cycling axis, take the median as
pivot, recurse on the two halves. -/
noncomputable def buildTree (dims : Nat) (chunks : List Chunk) (depth : Nat) : KDTree :=
  if h : chunks.length = 0 then .leaf
  else
    let axis := depth % dims
    let sorted := chunks.insertionSort (axLe axis)
    let m := sorted.length / 2
    .node (buildTree dims (sorted.take m) (depth + 1)) (sorted.getD m default) axis
      (buildTree dims (sorted.drop (m + 1)) (depth + 1))
termination_by chunks.length
decreasing_by
  · have hs : (List.insertionSort (axLe (depth % dims)) chunks).length = chunks.length :=
      List.length_insertionSort _ _
    simp only [List.length_take]
    omega
  · have hs : (List.insertionSort (axLe (depth % dims)) chunks).length = chunks.length :=
      List.length_insertionSort _ _
    simp only [List.length_drop]
    omega

/-- State of a KDTreeIndex instance. -/
structure KDState where
  similarityMetric : String := "cosine"
  indexedChunks : List Chunk := []
  isBuilt : Bool := false
  root : KDTree := .leaf
  dimensions : Nat := 0

/-- The `not self._root` test (a `None` root). -/
def KDTree.isLeaf : KDTree → Bool
  | .leaf => true
  | .node _ _ _ _ => false

/-- `KDTreeIndex.index`. Returns the post-state together with the exception
raised, if any, because the source mutates part of its state before raising:
`_dimensions` is written before the validation loop, and `_indexed_chunks` is
written before `_build_tree` runs. When every chunk (hence the first) has an
empty embedding, `_build_tree` evaluates `depth % 0` and raises
ZeroDivisionError, modelled by `zeroDivision`. -/
noncomputable def kdIndexRun (s : KDState) (chunks : List Chunk) :
    KDState × Option VErr :=
  match chunks with
  | [] => ({ s with root := .leaf, indexedChunks := [], isBuilt := true }, none)
  | c0 :: _ =>
    let dims := c0.embedding.length
    if chunks.all (fun c => c.embedding.length = dims) then
      if dims = 0 then
        ({ s with dimensions := dims, indexedChunks := chunks }, some .zeroDivision)
      else
        ({ s with dimensions := dims, indexedChunks := chunks,
                  root := buildTree dims chunks 0, isBuilt := true }, none)
    else ({ s with dimensions := dims }, some .dimensionMismatch)

/-- Distance of `best_results[-1]`; the source only reads it when the bounded
list is non-empty, so the default is never consulted. -/
def worstDistance (best : List SearchHit) : ℝ := (best.getLast?).elim 0 (·.distance)

/-- One node visit inside `KDTreeIndex.search`: compute the kernel pair
(skipping the node on any kernel exception), then either append (list not yet
full) or replace the worst entry (strictly better candidate), re-sorting. -/
noncomputable def visitChunk (query : List ℝ) (k : Nat) (metric : String)
    (c : Chunk) (best : List SearchHit) : List SearchHit :=
  match calcSim query c.embedding metric with
  | .error _ => best
  | .ok (d, sim) =>
    if best.length < k then (best ++ [(⟨c, d, sim⟩ : SearchHit)]).insertionSort hitLe
    else if d < worstDistance best then
      (best.dropLast ++ [(⟨c, d, sim⟩ : SearchHit)]).insertionSort hitLe
    else best

/-- The recursive `search_node` of `KDTreeIndex.search`: visit the pivot,
descend into the query's side first, then the far side only when the bounded
list is not full or the axis gap beats the current worst distance. -/
noncomputable def searchNode (query : List ℝ) (k : Nat) (metric : String) :
    KDTree → List SearchHit → List SearchHit
  | .leaf, best => best
  | .node l c axis r, best =>
    let best1 := visitChunk query k metric c best
    let diff := query.getD axis 0 - c.embedding.getD axis 0
    if diff ≤ 0 then
      let best2 := searchNode query k metric l best1
      if best2.length < k ∨ |diff| < worstDistance best2 then
        searchNode query k metric r best2
      else best2
    else
      let best2 := searchNode query k metric r best1
      if best2.length < k ∨ |diff| < worstDistance best2 then
        searchNode query k metric l best2
      else best2

/-- `KDTreeIndex.search`: empty result on unbuilt or empty tree, then the
empty-query and query-dimension guards, then the bounded best-first descent. -/
noncomputable def kdSearch (s : KDState) (query : List ℝ) (k : Nat)
    (metricOv : Option String) : Except VErr (List SearchHit) :=
  if s.isBuilt = false ∨ s.root.isLeaf then .ok []
  else if query = [] then .error .emptyQuery
  else if query.length ≠ s.dimensions then .error .dimensionMismatch
  else if min k s.indexedChunks.length = 0 then .ok []
  else
    .ok (searchNode query (min k s.indexedChunks.length)
      (metricOv.getD s.similarityMetric) s.root [])

/-! ## Metadata predicate evaluator (MetadataFilter, src/app/services/vector_index_service.py) -/

/-- Dict lookup inside a metadata object (Python dict keys are unique). -/
def objGet (fields : List (String × JVal)) (k : String) : Option JVal :=
  (fields.find? (fun kv => kv.1 == k)).map (·.2)

/-- Walk of the remaining dot-path inside `_get_nested_value`. -/
def getNestedGo : JVal → List String → Option JVal
  | v, [] => some v
  | .obj fields, k :: ks =>
    match objGet fields k with
    | some v => getNestedGo v ks
    | none => none
  | _, _ :: _ => none

/-- `MetadataFilter._get_nested_value`: traverse `key.split('.')`; `none` when
the path does not resolve (Python returns `None`, conflating a missing path
with a stored null). -/
def getNested (metadata : List (String × JVal)) (key : String) : Option JVal :=
  getNestedGo (JVal.obj metadata) (key.splitOn ".")

/-- `MetadataFilter._has_nested_key`: the same traversal, as a Bool; it
succeeds exactly when `_get_nested_value` reaches a value. -/
def hasNested (metadata : List (String × JVal)) (key : String) : Bool :=
  (getNested metadata key).isSome

/-- Does `needle` occur at the head of `hay`? -/
def charsStartWith : List Char → List Char → Bool
  | [], _ => true
  | _ :: _, [] => false
  | a :: as, b :: bs => a == b && charsStartWith as bs

/-- Substring test on character lists (Python `needle in hay` for strings). -/
def charsHaveSub (needle : List Char) : List Char → Bool
  | [] => needle.isEmpty
  | hay@(_ :: rest) => charsStartWith needle hay || charsHaveSub needle rest

mutual

/-- Python `<` between metadata values, as an `Option Bool`: `none` models the
TypeError CPython raises on unordered operand pairs. Numbers order among
themselves and against booleans (`bool` is an `int` subtype), strings against
strings, lists against lists elementwise; every other combination raises. -/
def jltv : JVal → JVal → Option Bool
  | .n a, .n b => some (decide (a < b))
  | .n a, .b b => some (decide (a < if b then 1 else 0))
  | .b a, .n b => some (decide ((if a then (1 : ℚ) else 0) < b))
  | .b a, .b b => some (decide ((if a then (1 : ℚ) else 0) < if b then 1 else 0))
  | .s a, .s b => some (decide (a < b))
  | .arr a, .arr b => jltList a b
  | _, _ => none

/-- Python list `<`: the first `==`-unequal pair decides by `<` (raising what
that comparison raises); lists with no unequal pair compare by length. -/
def jltList : List JVal → List JVal → Option Bool
  | [], [] => some false
  | [], _ :: _ => some true
  | _ :: _, [] => some false
  | a :: as, b :: bs => if jeq a b then jltList as bs else jltv a b

/-- Python `<=` between metadata values, with the same raise behaviour as
`jltv`. -/
def jlev : JVal → JVal → Option Bool
  | .n a, .n b => some (decide (a ≤ b))
  | .n a, .b b => some (decide (a ≤ if b then 1 else 0))
  | .b a, .n b => some (decide ((if a then (1 : ℚ) else 0) ≤ b))
  | .b a, .b b => some (decide ((if a then (1 : ℚ) else 0) ≤ if b then 1 else 0))
  | .s a, .s b => some (decide (a ≤ b))
  | .arr a, .arr b => jleList a b
  | _, _ => none

/-- Python list `<=`: the first `==`-unequal pair decides by strict `<`;
lists with no unequal pair compare by length. -/
def jleList : List JVal → List JVal → Option Bool
  | [], _ => some true
  | _ :: _, [] => some false
  | a :: as, b :: bs => if jeq a b then jleList as bs else jltv a b

end

/-- Python `value in expected`: list membership by `==` (never raises on
JSON-derived values), substring test when both sides are strings (a non-string
left operand of `in <string>` raises TypeError), key membership for a dict;
`in` on a non-container right operand raises TypeError. `none` models the
raise. -/
def jmem (v : JVal) : JVal → Option Bool
  | .arr vs => some (vs.any (fun x => jeq v x))
  | .s hay =>
    match v with
    | .s needle => some (charsHaveSub needle.data hay.data)
    | _ => none
  | .obj fields => some (fields.any (fun kv => jeq v (JVal.s kv.1)))
  | _ => none

/-- A filter condition: a bare value (equality) or a mapping of operator name
to expected value. -/
inductive Cond where
  | bare (v : JVal)
  | ops (l : List (String × JVal))

/-- Semantics of the Python standard-library calls the metadata evaluator
leans on, as parameters of the embedding (they are library code, not this
repository's): `reSearch pat s` is the truthiness of
`re.search(pat, s, re.IGNORECASE)`, with `none` for the `re.error` a
malformed pattern raises; `parseDate` is `MetadataFilter._parse_date`, which
swallows its own failures and returns `None` (= `none`) on unparseable input;
`dlt`/`dle` are `<`/`<=` on parsed datetimes, with `none` for the TypeError
on comparing naive with aware datetimes. Every theorem below is quantified
over these, so it holds in particular for the standard library's behaviour. -/
structure PyLib (δ : Type) where
  reSearch : String → String → Option Bool
  parseDate : JVal → Option δ
  dlt : δ → δ → Option Bool
  dle : δ → δ → Option Bool

/-- One operator of `MetadataFilter._evaluate_condition`, in the source's
`elif` order; `none` models an uncaught exception. The looked-up value is
collapsed to `JVal.null` when the path is missing, exactly as Python's `None`
conflates the two. `$gt`/`$gte`/`$lt`/`$lte` guard on `value is not None`
before comparing; `$contains` and `$regex` guard on `isinstance(value, str)`
but evaluate `expected.lower()` / pass `expected` to `re.search` unchecked;
the `$date_*` guards return false when a parse yields `None`, and
`$date_range` calls `.get` on `expected`, raising unless it is a dict. An
unknown operator is skipped (`continue`). -/
def evalOpc {δ : Type} (lib : PyLib δ) (md : List (String × JVal)) (key : String)
    (op : String) (expected : JVal) : Option Bool :=
  let value := (getNested md key).getD JVal.null
  if op = "$eq" then some (jeq value expected)
  else if op = "$ne" then some (!(jeq value expected))
  else if op = "$gt" then
    if jeq value JVal.null then some false else jltv expected value
  else if op = "$gte" then
    if jeq value JVal.null then some false else jlev expected value
  else if op = "$lt" then
    if jeq value JVal.null then some false else jltv value expected
  else if op = "$lte" then
    if jeq value JVal.null then some false else jlev value expected
  else if op = "$in" then jmem value expected
  else if op = "$nin" then (jmem value expected).map (!·)
  else if op = "$contains" then
    match value with
    | .s v =>
      match expected with
      | .s e => some (charsHaveSub e.toLower.data v.toLower.data)
      | _ => none
    | _ => some false
  else if op = "$regex" then
    match value with
    | .s v =>
      match expected with
      | .s pat => lib.reSearch pat v
      | _ => none
    | _ => some false
  else if op = "$exists" then some (jeq expected (JVal.b (hasNested md key)))
  else if op = "$date_after" then
    match lib.parseDate value, lib.parseDate expected with
    | some dv, some de => lib.dlt de dv
    | _, _ => some false
  else if op = "$date_before" then
    match lib.parseDate value, lib.parseDate expected with
    | some dv, some de => lib.dlt dv de
    | _, _ => some false
  else if op = "$date_range" then
    match expected with
    | .obj fields =>
      match lib.parseDate value,
          lib.parseDate ((objGet fields "start").getD JVal.null),
          lib.parseDate ((objGet fields "end").getD JVal.null) with
      | some dv, some ds, some de =>
        match lib.dle ds dv with
        | none => none
        | some false => some false
        | some true => lib.dle dv de
      | _, _, _ => some false
    | _ => none
  else some true

/-- The `for op, expected in condition.items()` loop: stop at the first
failing operator; an exception aborts the walk. -/
def evalOps {δ : Type} (lib : PyLib δ) (md : List (String × JVal))
    (key : String) : List (String × JVal) → Option Bool
  | [] => some true
  | oe :: rest =>
    match evalOpc lib md key oe.1 oe.2 with
    | none => none
    | some false => some false
    | some true => evalOps lib md key rest

/-- `MetadataFilter._evaluate_condition`: bare values mean equality; an
operator mapping requires every listed operator to hold. -/
def evalCondition {δ : Type} (lib : PyLib δ) (md : List (String × JVal))
    (key : String) : Cond → Option Bool
  | .bare v => some (jeq ((getNested md key).getD JVal.null) v)
  | .ops l => evalOps lib md key l

/-- `MetadataFilter.apply_filter`: conjunction over the key → condition map,
stopping at the first failing condition; an exception aborts the walk. -/
def applyFilter {δ : Type} (lib : PyLib δ) (chunkMetadata : List (String × JVal)) :
    List (String × Cond) → Option Bool
  | [] => some true
  | kc :: rest =>
    match evalCondition lib chunkMetadata kc.1 kc.2 with
    | none => none
    | some false => some false
    | some true => applyFilter lib chunkMetadata rest

/-! ## Query engine (VectorIndexService, src/app/services/vector_index_service.py) -/

/-- Association-list primitives standing in for Python dicts (keys unique). -/
def alookup {α : Type} (l : List (Nat × α)) (key : Nat) : Option α :=
  (l.find? (fun kv => kv.1 == key)).map (·.2)

/-- Key removal (`del d[key]`; a no-op when the key is absent, matching the
source's presence-guarded deletes). -/
def aerase {α : Type} (l : List (Nat × α)) (key : Nat) : List (Nat × α) :=
  l.filter (fun kv => kv.1 != key)

/-- Key assignment (`d[key] = v`). -/
def aset {α : Type} (l : List (Nat × α)) (key : Nat) (v : α) : List (Nat × α) :=
  if (alookup l key).isSome then
    l.map (fun kv => if kv.1 == key then (key, v) else kv)
  else l ++ [(key, v)]

/-- In-place update of a present value. -/
def amodify {α : Type} (l : List (Nat × α)) (key : Nat) (f : α → α) :
    List (Nat × α) :=
  l.map (fun kv => if kv.1 == key then (kv.1, f kv.2) else kv)

/-- An index instance owned by the engine: one of the two variants. -/
inductive IdxInst where
  | bf (s : BFState)
  | kd (s : KDState)

/-- Variant dispatch of `idx.search(...)`. -/
noncomputable def idxSearch : IdxInst → List ℝ → Nat → Option String →
    Except VErr (List SearchHit)
  | .bf s, q, k, m => bfSearch s q k m
  | .kd s, q, k, m => kdSearch s q k m

/-- Engine state: `_indexes`, the mapping library id → (type name, instance). -/
structure VSState where
  indexes : List (Nat × (String × IdxInst)) := []

/-- Keys of the closed `_index_types` registry. -/
def indexTypeNames : List String := ["brute_force", "kdtree"]

/-- `VectorIndexService.set_index_type`: validate the name, then discard any
existing entry for the library. Nothing records the requested type. -/
def setIndexType (st : VSState) (libraryId : Nat) (indexType : String) :
    Except VErr VSState :=
  if indexType ∉ indexTypeNames then .error .unknownVariant
  else .ok { st with indexes := aerase st.indexes libraryId }

/-- `VectorIndexService.get_index_type`: the stored entry's type name, else
the `_default_type`, `"brute_force"`. -/
def getIndexType (st : VSState) (libraryId : Nat) : String :=
  match alookup st.indexes libraryId with
  | some (t, _) => t
  | none => "brute_force"

/-- `VectorIndexService.index_library`: resolve the variant (a falsy override
defers to `get_index_type`), build a fresh instance, install it. A build
exception (KD-tree dimension validation) propagates and leaves `_indexes`
unchanged. -/
noncomputable def indexLibrary (st : VSState) (libraryId : Nat)
    (chunks : List Chunk) (indexTypeOv : Option String) : VSState × Option VErr :=
  let indexType :=
    if indexTypeOv.getD "" = "" then getIndexType st libraryId else indexTypeOv.getD ""
  if indexType ∉ indexTypeNames then (st, some .unknownVariant)
  else if indexType = "kdtree" then
    match kdIndexRun {} chunks with
    | (ks, none) =>
      ({ st with indexes := aset st.indexes libraryId ("kdtree", .kd ks) }, none)
    | (_, some e) => (st, some e)
  else
    ({ st with indexes := aset st.indexes libraryId ("brute_force", .bf (bfIndex {} chunks)) },
     none)

/-- The filtering walk of `search_similar_chunks`: keep hits satisfying the
filter, in order, stopping as soon as `k` have been kept; an exception raised
by `apply_filter` propagates out of the call. -/
def filterLoop {δ : Type} (lib : PyLib δ) (f : List (String × Cond)) (k : Nat)
    (acc : List SearchHit) : List SearchHit → Except VErr (List SearchHit)
  | [] => .ok acc
  | r :: rs =>
    match applyFilter lib r.chunk.metadata f with
    | none => .error .typeError
    | some true =>
      if k ≤ (acc ++ [r]).length then .ok (acc ++ [r])
      else filterLoop lib f k (acc ++ [r]) rs
    | some false => filterLoop lib f k acc rs

/-- `VectorIndexService.search_similar_chunks`: empty when the library has no
active index; otherwise over-fetch `3k` when a filter is present, apply the
filter walk, else trim to `k`. -/
noncomputable def searchSimilarChunks {δ : Type} (lib : PyLib δ) (st : VSState)
    (libraryId : Nat) (queryEmbedding : List ℝ) (k : Nat)
    (similarityMetric : String) (metadataFilter : Option (List (String × Cond))) :
    Except VErr (List SearchHit) :=
  match alookup st.indexes libraryId with
  | none => .ok []
  | some (_, idx) =>
    match idxSearch idx queryEmbedding
        (if metadataFilter.isSome then k * 3 else k) (some similarityMetric) with
    | .error e => .error e
    | .ok results =>
      match metadataFilter with
      | some f => filterLoop lib f k [] results
      | none => .ok (results.take k)

/-! ## Catalog repository (LibraryRepository, src/app/repositories/library_repository.py) -/

/-- Document entity (src/app/models/document.py). -/
structure Document where
  id : Nat
  title : String
  content : Option String
  metadata : List (String × JVal)
  libraryId : Nat
  chunks : List Chunk
  createdAt : Nat
  updatedAt : Option Nat

/-- Library entity (src/app/models/library.py). -/
structure Library where
  id : Nat
  name : String
  metadata : List (String × JVal)
  documents : List Document
  createdAt : Nat

/-- The repository's maps: three by-id lookups plus the relation maps. -/
structure RepoState where
  libraries : List (Nat × Library) := []
  documents : List (Nat × Document) := []
  chunks : List (Nat × Chunk) := []
  libraryDocuments : List (Nat × List Nat) := []
  documentChunks : List (Nat × List Nat) := []
  chunkDocument : List (Nat × Nat) := []
  documentLibrary : List (Nat × Nat) := []

/-- `_get_document_chunks_internal`: resolve the chunk-id set, dropping ids
whose chunk is absent. -/
def getDocumentChunksInternal (st : RepoState) (documentId : Nat) : List Chunk :=
  ((alookup st.documentChunks documentId).getD []).filterMap
    (fun cid => alookup st.chunks cid)

/-- `LibraryRepository.get_document`: the stored document with its chunks
filled in (returned copies are independent values). -/
def getDocument (st : RepoState) (documentId : Nat) : Option Document :=
  match alookup st.documents documentId with
  | none => none
  | some d => some { d with chunks := getDocumentChunksInternal st documentId }

/-- `_get_library_documents_internal`. -/
def getLibraryDocumentsInternal (st : RepoState) (libraryId : Nat) : List Document :=
  ((alookup st.libraryDocuments libraryId).getD []).filterMap
    (fun did => getDocument st did)

/-- `LibraryRepository.get_library`. -/
def getLibrary (st : RepoState) (libraryId : Nat) : Option Library :=
  match alookup st.libraries libraryId with
  | none => none
  | some l => some { l with documents := getLibraryDocumentsInternal st libraryId }

/-- `LibraryRepository.get_chunk`. -/
def getChunk (st : RepoState) (chunkId : Nat) : Option Chunk :=
  alookup st.chunks chunkId

/-- `LibraryRepository.get_all_libraries`. -/
def getAllLibraries (st : RepoState) : List Library :=
  st.libraries.filterMap (fun kv => getLibrary st kv.1)

/-- `LibraryRepository.create_library`; `uuid4` and `utcnow` are passed in as
the explicit `newId` and `now`. -/
def repoCreateLibrary (st : RepoState) (name : String)
    (metadata : List (String × JVal)) (newId : Nat) (now : Nat) :
    Except VErr (RepoState × Library) :=
  let library : Library := ⟨newId, name, metadata, [], now⟩
  if (alookup st.libraries newId).isSome then .error .alreadyExists
  else .ok ({ st with libraries := aset st.libraries newId library,
                      libraryDocuments := aset st.libraryDocuments newId [] }, library)

/-- `_delete_chunk_internal`: detach from the owning document's set, then
remove the chunk and its back-reference. -/
def deleteChunkInternal (st : RepoState) (chunkId : Nat) : RepoState × Bool :=
  if (alookup st.chunks chunkId).isSome = false then (st, false)
  else
    let st1 :=
      match alookup st.chunkDocument chunkId with
      | some documentId =>
        if (alookup st.documentChunks documentId).isSome then
          { st with documentChunks :=
              (amodify st.documentChunks documentId
                (fun s => s.filter (fun c => c != chunkId))) }
        else st
      | none => st
    let st2 := { st1 with chunks := aerase st1.chunks chunkId }
    ({ st2 with chunkDocument := aerase st2.chunkDocument chunkId }, true)

/-- The chunk-deletion loop of `_delete_document_internal`. -/
def deleteChunksFold (st : RepoState) (chs : List Nat) : RepoState :=
  chs.foldl (fun acc cid => (deleteChunkInternal acc cid).1) st

/-- `_delete_document_internal`: delete the document's chunks (the id set is
copied first), detach from the parent library, drop the document's maps. -/
def deleteDocumentInternal (st : RepoState) (documentId : Nat) : RepoState × Bool :=
  if (alookup st.documents documentId).isSome = false then (st, false)
  else
    let st1 := deleteChunksFold st ((alookup st.documentChunks documentId).getD [])
    let st2 :=
      match alookup st1.documentLibrary documentId with
      | some libraryId =>
        if (alookup st1.libraryDocuments libraryId).isSome then
          { st1 with libraryDocuments :=
              (amodify st1.libraryDocuments libraryId
                (fun s => s.filter (fun d => d != documentId))) }
        else st1
      | none => st1
    let st3 := { st2 with documents := aerase st2.documents documentId,
                          documentChunks := aerase st2.documentChunks documentId }
    ({ st3 with documentLibrary := aerase st3.documentLibrary documentId }, true)

/-- The document-deletion loop of `delete_library`. -/
def deleteDocumentsFold (st : RepoState) (dl : List Nat) : RepoState :=
  dl.foldl (fun acc did => (deleteDocumentInternal acc did).1) st

/-- `LibraryRepository.delete_library`: false when absent; otherwise cascade
over the (copied) document-id set, then drop the library's own maps. -/
def deleteLibrary (st : RepoState) (libraryId : Nat) : RepoState × Bool :=
  if (alookup st.libraries libraryId).isSome = false then (st, false)
  else
    let st1 := deleteDocumentsFold st ((alookup st.libraryDocuments libraryId).getD [])
    ({ st1 with libraries := aerase st1.libraries libraryId,
                libraryDocuments := aerase st1.libraryDocuments libraryId }, true)

/-- `LibraryRepository.get_stats`. -/
structure Stats where
  librariesCount : Nat
  documentsCount : Nat
  chunksCount : Nat
  totalEntities : Nat
deriving DecidableEq

/-- Count of each entity map. -/
def getStats (st : RepoState) : Stats :=
  ⟨st.libraries.length, st.documents.length, st.chunks.length,
   st.libraries.length + st.documents.length + st.chunks.length⟩

/-- One keyword argument to `update_library`; setattr targets by field name.
The source skips `id`, `created_at` and `documents`. -/
inductive LibraryUpd where
  | name (v : String)
  | metadata (v : List (String × JVal))
  | idF (v : Nat)
  | createdAt (v : Nat)
  | documentsF (v : List Document)

/-- Application of one `update_library` keyword. -/
def applyLibraryUpd (l : Library) : LibraryUpd → Library
  | .name v => { l with name := v }
  | .metadata v => { l with metadata := v }
  | .idF _ => l
  | .createdAt _ => l
  | .documentsF _ => l

/-- One keyword argument to `update_document`. The source's excluded list is
`['id', 'created_at', 'chunks']`: `library_id` is not in it. -/
inductive DocumentUpd where
  | title (v : String)
  | content (v : Option String)
  | metadata (v : List (String × JVal))
  | libraryId (v : Nat)
  | updatedAt (v : Option Nat)
  | idF (v : Nat)
  | createdAt (v : Nat)
  | chunksF (v : List Chunk)

/-- Application of one `update_document` keyword. -/
def applyDocumentUpd (d : Document) : DocumentUpd → Document
  | .title v => { d with title := v }
  | .content v => { d with content := v }
  | .metadata v => { d with metadata := v }
  | .libraryId v => { d with libraryId := v }
  | .updatedAt v => { d with updatedAt := v }
  | .idF _ => d
  | .createdAt _ => d
  | .chunksF _ => d

/-- One keyword argument to `update_chunk`. The source's excluded list is
`['id', 'created_at']`: `document_id` is not in it. -/
inductive ChunkUpd where
  | text (v : String)
  | embedding (v : List ℝ)
  | metadata (v : List (String × JVal))
  | documentId (v : Nat)
  | updatedAt (v : Nat)
  | idF (v : Nat)
  | createdAt (v : Nat)

/-- Application of one `update_chunk` keyword. -/
def applyChunkUpd (c : Chunk) : ChunkUpd → Chunk
  | .text v => { c with text := v }
  | .embedding v => { c with embedding := v }
  | .metadata v => { c with metadata := v }
  | .documentId v => { c with documentId := v }
  | .updatedAt v => { c with updatedAt := v }
  | .idF _ => c
  | .createdAt _ => c

/-- `LibraryRepository.update_library`. -/
def updateLibrary (st : RepoState) (libraryId : Nat) (upds : List LibraryUpd) :
    RepoState × Option Library :=
  match alookup st.libraries libraryId with
  | none => (st, none)
  | some l =>
    let l' := upds.foldl applyLibraryUpd l
    let st' := { st with libraries := aset st.libraries libraryId l' }
    (st', getLibrary st' libraryId)

/-- `LibraryRepository.update_document`. -/
def updateDocument (st : RepoState) (documentId : Nat) (upds : List DocumentUpd) :
    RepoState × Option Document :=
  match alookup st.documents documentId with
  | none => (st, none)
  | some d =>
    let d' := upds.foldl applyDocumentUpd d
    let st' := { st with documents := aset st.documents documentId d' }
    (st', getDocument st' documentId)

/-- `LibraryRepository.update_chunk`. -/
def updateChunk (st : RepoState) (chunkId : Nat) (upds : List ChunkUpd) :
    RepoState × Option Chunk :=
  match alookup st.chunks chunkId with
  | none => (st, none)
  | some c =>
    let c' := upds.foldl applyChunkUpd c
    let st' := { st with chunks := aset st.chunks chunkId c' }
    (st', getChunk st' chunkId)

/-! ## Service layer (LibraryService.create_library, src/app/services/library_service.py) -/

/-- Leading-whitespace removal on a character list. -/
def dropWS : List Char → List Char
  | [] => []
  | c :: cs => if c.isWhitespace then dropWS cs else c :: cs

/-- Python's `str.strip()`: remove leading and trailing whitespace. -/
def strTrim (s : String) : String :=
  ⟨(dropWS (dropWS s.data.reverse).reverse)⟩

/-- `LibraryService.create_library`: the three business checks in source
order (stripped length, surrounding whitespace, case-insensitive duplicate),
then delegation to the repository. -/
def serviceCreateLibrary (repo : RepoState) (name : String)
    (metadata : List (String × JVal)) (newId : Nat) (now : Nat) :
    Except VErr (RepoState × Library) :=
  if (strTrim name).length < 3 then .error .validation
  else if strTrim name ≠ name then .error .validation
  else if (getAllLibraries repo).any (fun lib => lib.name.toLower == name.toLower) then
    .error .validation
  else repoCreateLibrary repo name metadata newId now

/-! ## Auxiliary notions used only by the theorems -/

/-- The chunks held in a KD-tree, in-order. -/
def KDTree.chunks : KDTree → List Chunk
  | .leaf => []
  | .node l c _ r => l.chunks ++ c :: r.chunks

/-- Shape well-formedness of a KD-tree: every pivot splits its subtrees along
its axis, and axes are in range. `buildTree` establishes it. -/
def kdWF (dims : Nat) : KDTree → Prop
  | .leaf => True
  | .node l c axis r =>
    axis < dims ∧
    (∀ x ∈ l.chunks, axKey axis x ≤ axKey axis c) ∧
    (∀ x ∈ r.chunks, axKey axis c ≤ axKey axis x) ∧
    kdWF dims l ∧ kdWF dims r

/-- The multiset of the `k` smallest elements: sort ascending, take `k`. -/
noncomputable def sel (k : Nat) (s : Multiset ℝ) : Multiset ℝ :=
  ↑((s.sort (· ≤ ·)).take k)

/-- Distances of a hit list, as a multiset. -/
def distMult (l : List SearchHit) : Multiset ℝ := ↑(l.map SearchHit.distance)

/-- The euclidean kernel distance between a query and a chunk's embedding. -/
noncomputable def edist (q : List ℝ) (c : Chunk) : ℝ :=
  Real.sqrt (sumSq (subV q c.embedding))

/-- Referential consistency of the repository maps, as the Python dict
discipline guarantees for states reachable through the API: unique keys,
every library/document owning a relation set, and relation sets made of
existing children whose back-references agree with the forward sets. -/
structure RepoWf (st : RepoState) : Prop where
  libKeys : (st.libraries.map Prod.fst).Nodup
  docKeys : (st.documents.map Prod.fst).Nodup
  chunkKeys : (st.chunks.map Prod.fst).Nodup
  libHasDocSet : ∀ kv ∈ st.libraries, (alookup st.libraryDocuments kv.1).isSome
  docHasChunkSet : ∀ kv ∈ st.documents, (alookup st.documentChunks kv.1).isSome
  docsOfLib : ∀ kv ∈ st.libraryDocuments, kv.2.Nodup ∧
    ∀ did ∈ kv.2, (alookup st.documents did).isSome ∧
      alookup st.documentLibrary did = some kv.1
  chunksOfDoc : ∀ kv ∈ st.documentChunks, kv.2.Nodup ∧
    ∀ cid ∈ kv.2, (alookup st.chunks cid).isSome ∧
      alookup st.chunkDocument cid = some kv.1

/-- A small concrete catalog: library 1 owning document 2 with chunks 3, 4. -/
def exRepo : RepoState :=
  ⟨[(1, ⟨1, "lib", [], [], 0⟩)],
   [(2, ⟨2, "doc", none, [], 1, [], 0, none⟩)],
   [(3, ⟨3, 2, "a", [], [], 0, 0⟩), (4, ⟨4, 2, "b", [], [], 0, 0⟩)],
   [(1, [2])], [(2, [3, 4])], [(3, 2), (4, 2)], [(2, 1)]⟩

/-- Concrete chunks for exercising the two index variants on one data set:
ids 1, 2, 3 with embeddings (4,3), (12,5), (30,40). -/
def cex1 : Chunk := ⟨1, 0, "", [4, 3], [], 0, 0⟩

/-- Second concrete chunk. -/
def cex2 : Chunk := ⟨2, 0, "", [12, 5], [], 0, 0⟩

/-- Third concrete chunk; collinear with the query (3,4), so its cosine
distance to it is 0. -/
def cex3 : Chunk := ⟨3, 0, "", [30, 40], [], 0, 0⟩

/-- A one-dimensional chunk (id 1, embedding (3)) for exercising the two
index variants under the euclidean metric. -/
def wchunk : Chunk := ⟨1, 0, "", [3], [], 0, 0⟩

/-- A concrete standard-library instantiation for the witnesses: its regex
search never matches and its date parser parses nothing. -/
def pyLib0 : PyLib Unit :=
  ⟨fun _ _ => some false, fun _ => none, fun _ _ => some false, fun _ _ => some false⟩

/-! # Theorems

Helper lemmas first, then one theorem per claim (each claim theorem is named
`claim…`, with its witness or counterexample next to it). -/

theorem sumSq_nonneg (v : List ℝ) : 0 ≤ sumSq v := by
  induction v with
  | nil => simp [sumSq]
  | cons a t ih =>
    simp only [sumSq, List.map_cons, List.sum_cons] at *
    nlinarith [mul_self_nonneg a]

theorem dotp_self (v : List ℝ) : dotp v v = sumSq v := by
  induction v with
  | nil => rfl
  | cons a t ih =>
    simp only [dotp, sumSq, List.zipWith_cons_cons, List.map_cons, List.sum_cons] at *
    rw [ih]

theorem sumSq_subV_self (v : List ℝ) : sumSq (subV v v) = 0 := by
  induction v with
  | nil => rfl
  | cons a t ih =>
    simp only [subV, sumSq, List.zipWith_cons_cons, List.map_cons, List.sum_cons] at *
    rw [ih]
    ring

theorem calcSim_zero (v1 v2 : List ℝ) (metric : String)
    (h : Real.sqrt (sumSq v1) = 0 ∨ Real.sqrt (sumSq v2) = 0) :
    calcSim v1 v2 metric = .ok (1, 0) := by
  simp [calcSim, h]

theorem calcSim_cosine (v1 v2 : List ℝ) (h1 : Real.sqrt (sumSq v1) ≠ 0)
    (h2 : Real.sqrt (sumSq v2) ≠ 0) (hlen : v1.length = v2.length) :
    calcSim v1 v2 "cosine" =
      .ok (1 - dotp v1 v2 / (Real.sqrt (sumSq v1) * Real.sqrt (sumSq v2)),
           dotp v1 v2 / (Real.sqrt (sumSq v1) * Real.sqrt (sumSq v2))) := by
  simp [calcSim, h1, h2, hlen]

theorem calcSim_euclidean (v1 v2 : List ℝ) (h1 : Real.sqrt (sumSq v1) ≠ 0)
    (h2 : Real.sqrt (sumSq v2) ≠ 0) (hlen : v1.length = v2.length) :
    calcSim v1 v2 "euclidean" =
      .ok (Real.sqrt (sumSq (subV v1 v2)), 1 / (1 + Real.sqrt (sumSq (subV v1 v2)))) := by
  simp [calcSim, h1, h2, hlen]

theorem calcSim_invalid (v1 v2 : List ℝ) (metric : String)
    (h1 : Real.sqrt (sumSq v1) ≠ 0) (h2 : Real.sqrt (sumSq v2) ≠ 0)
    (hm : ¬ (metric = "cosine" ∨ metric = "euclidean" ∨ metric = "dot_product")) :
    calcSim v1 v2 metric = .error .invalidMetric := by
  push_neg at hm
  simp [calcSim, h1, h2, hm.1, hm.2.1, hm.2.2]

/-- C5 (corrected): the kernel's zero-norm early return fires before the
euclidean branch, so at the zero vector the "euclidean" distance is 1.0, not
0.0, and against `[3]` it is 1.0, not the norm of the difference (3). -/
theorem claim5_counterexample :
    calcSim [(0 : ℝ)] [0] "euclidean" = .ok (1, 0) ∧
    calcSim [(0 : ℝ)] [3] "euclidean" = .ok (1, 0) ∧
    Real.sqrt (sumSq (subV [(0 : ℝ)] [3])) = 3 ∧
    (1 : ℝ) ≠ 0 ∧ (1 : ℝ) ≠ 3 := by
  have hz : Real.sqrt (sumSq [(0 : ℝ)]) = 0 := by
    simp [sumSq]
  refine ⟨calcSim_zero _ _ _ (Or.inl hz), calcSim_zero _ _ _ (Or.inl hz), ?_, by norm_num,
    by norm_num⟩
  have : sumSq (subV [(0 : ℝ)] [3]) = 9 := by
    simp [sumSq, subV]
    norm_num
  rw [this, show (9 : ℝ) = 3 ^ 2 by norm_num, Real.sqrt_sq (by norm_num)]

/-- C5 (amended): for vectors of positive norm the kernel yields cosine
similarity 1.0 and euclidean distance 0.0 on `(v, v)`, and the euclidean
distance of any two same-length positive-norm vectors is the norm of their
difference; for the known metrics on same-length vectors the kernel always
returns a (finite) real pair. Zero-norm vectors are excluded: there the
zero-vector early return yields the pair (1.0, 0.0) under every metric. -/
theorem claim5_kernel_identities :
    (∀ v : List ℝ, 0 < Real.sqrt (sumSq v) → calcSim v v "cosine" = .ok (0, 1)) ∧
    (∀ v : List ℝ, 0 < Real.sqrt (sumSq v) → calcSim v v "euclidean" = .ok (0, 1)) ∧
    (∀ u v : List ℝ, 0 < Real.sqrt (sumSq u) → 0 < Real.sqrt (sumSq v) →
      u.length = v.length →
      calcSim u v "euclidean" =
        .ok (Real.sqrt (sumSq (subV u v)), 1 / (1 + Real.sqrt (sumSq (subV u v))))) ∧
    (∀ (u v : List ℝ) (m : String), u.length = v.length →
      m = "cosine" ∨ m = "euclidean" ∨ m = "dot_product" →
      ∃ p : ℝ × ℝ, calcSim u v m = .ok p) := by
  refine ⟨?_, ?_, ?_, ?_⟩
  · intro v hv
    rw [calcSim_cosine v v (ne_of_gt hv) (ne_of_gt hv) rfl]
    have hs : 0 < sumSq v := Real.sqrt_pos.mp hv
    rw [dotp_self, Real.mul_self_sqrt (le_of_lt hs), div_self (ne_of_gt hs)]
    norm_num
  · intro v hv
    rw [calcSim_euclidean v v (ne_of_gt hv) (ne_of_gt hv) rfl, sumSq_subV_self,
      Real.sqrt_zero]
    norm_num
  · intro u v hu hv hlen
    exact calcSim_euclidean u v (ne_of_gt hu) (ne_of_gt hv) hlen
  · intro u v m hlen hm
    by_cases hz : Real.sqrt (sumSq u) = 0 ∨ Real.sqrt (sumSq v) = 0
    · exact ⟨(1, 0), calcSim_zero u v m hz⟩
    · push_neg at hz
      rcases hm with rfl | rfl | rfl
      · exact ⟨_, calcSim_cosine u v hz.1 hz.2 hlen⟩
      · exact ⟨_, calcSim_euclidean u v hz.1 hz.2 hlen⟩
      · exact ⟨(-dotp u v, dotp u v), by simp [calcSim, hz.1, hz.2, hlen]⟩

/-- Witness for C5 at `v = [3]`, `u = [3], v = [4]`. -/
theorem claim5_witness :
    calcSim [(3 : ℝ)] [3] "cosine" = .ok (0, 1) ∧
    calcSim [(3 : ℝ)] [3] "euclidean" = .ok (0, 1) ∧
    calcSim [(3 : ℝ)] [4] "euclidean" =
      .ok (Real.sqrt (sumSq (subV [(3 : ℝ)] [4])),
           1 / (1 + Real.sqrt (sumSq (subV [(3 : ℝ)] [4])))) ∧
    (∃ p : ℝ × ℝ, calcSim [(3 : ℝ)] [4] "dot_product" = .ok p) := by
  have h3 : 0 < Real.sqrt (sumSq [(3 : ℝ)]) :=
    Real.sqrt_pos.mpr (by norm_num [sumSq])
  have h4 : 0 < Real.sqrt (sumSq [(4 : ℝ)]) :=
    Real.sqrt_pos.mpr (by norm_num [sumSq])
  exact ⟨claim5_kernel_identities.1 _ h3, claim5_kernel_identities.2.1 _ h3,
    claim5_kernel_identities.2.2.1 _ _ h3 h4 rfl,
    claim5_kernel_identities.2.2.2 _ _ _ rfl (Or.inr (Or.inr rfl))⟩

/-! ### Association-list lemmas -/

theorem alookup_cons {α : Type} (kv : Nat × α) (t : List (Nat × α)) (key : Nat) :
    alookup (kv :: t) key = if kv.1 = key then some kv.2 else alookup t key := by
  by_cases h : kv.1 = key <;> simp [alookup, List.find?_cons, h]

theorem alookup_aerase {α : Type} (l : List (Nat × α)) (key : Nat) :
    alookup (aerase l key) key = none := by
  induction l with
  | nil => rfl
  | cons kv t ih =>
    simp only [aerase, List.filter_cons] at *
    by_cases h : kv.1 = key
    · simpa [h] using ih
    · simpa [h, alookup_cons] using ih

theorem alookup_aerase_other {α : Type} (l : List (Nat × α)) (key x : Nat)
    (hx : x ≠ key) : alookup (aerase l key) x = alookup l x := by
  have hkx : ¬ key = x := fun he => hx he.symm
  induction l with
  | nil => rfl
  | cons kv t ih =>
    simp only [aerase, List.filter_cons] at *
    by_cases h : kv.1 = key
    · rw [if_neg (by simp [h]), ih, alookup_cons, if_neg (by rw [h]; exact hkx)]
    · rw [if_pos (by simp [h]), alookup_cons, alookup_cons]
      by_cases h2 : kv.1 = x
      · rw [if_pos h2, if_pos h2]
      · rw [if_neg h2, if_neg h2, ih]

theorem alookup_append {α : Type} (l₁ l₂ : List (Nat × α)) (key : Nat) :
    alookup (l₁ ++ l₂) key =
      match alookup l₁ key with
      | some v => some v
      | none => alookup l₂ key := by
  induction l₁ with
  | nil => simp [alookup]
  | cons kv t ih =>
    by_cases h : kv.1 = key <;> simp [alookup_cons, h, ih]

theorem alookup_asetMap_same {α : Type} (l : List (Nat × α)) (key : Nat) (v : α)
    (hp : (alookup l key).isSome) :
    alookup (l.map (fun kv => if kv.1 == key then (key, v) else kv)) key = some v := by
  induction l with
  | nil => simp [alookup] at hp
  | cons kv t ih =>
    by_cases h : kv.1 = key
    · simp [List.map_cons, h, alookup_cons]
    · simp only [alookup_cons, h, if_neg, not_false_iff] at hp
      simpa [List.map_cons, h, alookup_cons] using ih hp

theorem alookup_asetMap_other {α : Type} (l : List (Nat × α)) (key x : Nat) (v : α)
    (hx : x ≠ key) :
    alookup (l.map (fun kv => if kv.1 == key then (key, v) else kv)) x = alookup l x := by
  have hkx : ¬ key = x := fun he => hx he.symm
  induction l with
  | nil => rfl
  | cons kv t ih =>
    rw [List.map_cons]
    by_cases h : kv.1 = key
    · rw [show (if (kv.1 == key) = true then (key, v) else kv) = (key, v) from
        if_pos (by simp [h])]
      rw [alookup_cons, alookup_cons, if_neg hkx, if_neg (by rw [h]; exact hkx), ih]
    · rw [show (if (kv.1 == key) = true then (key, v) else kv) = kv from
        if_neg (by simp [h])]
      rw [alookup_cons, alookup_cons, ih]

theorem alookup_aset_same {α : Type} (l : List (Nat × α)) (key : Nat) (v : α) :
    alookup (aset l key v) key = some v := by
  unfold aset
  by_cases hp : (alookup l key).isSome
  · rw [if_pos hp]
    exact alookup_asetMap_same l key v hp
  · rw [if_neg hp, alookup_append]
    simp only [Option.not_isSome_iff_eq_none] at hp
    rw [hp]
    simp [alookup_cons]

theorem alookup_aset_other {α : Type} (l : List (Nat × α)) (key x : Nat) (v : α)
    (hx : x ≠ key) : alookup (aset l key v) x = alookup l x := by
  unfold aset
  by_cases hp : (alookup l key).isSome
  · rw [if_pos hp]
    exact alookup_asetMap_other l key x v hx
  · rw [if_neg hp, alookup_append]
    cases hres : alookup l x with
    | some w => simp
    | none =>
      rw [alookup_cons, if_neg (fun he : key = x => hx he.symm)]
      rfl

theorem alookup_amodify_other {α : Type} (l : List (Nat × α)) (key x : Nat)
    (f : α → α) (hx : x ≠ key) : alookup (amodify l key f) x = alookup l x := by
  have hkx : ¬ key = x := fun he => hx he.symm
  induction l with
  | nil => rfl
  | cons kv t ih =>
    simp only [amodify] at ih ⊢
    rw [List.map_cons]
    by_cases h : kv.1 = key
    · rw [show (if (kv.1 == key) = true then (kv.1, f kv.2) else kv) = (kv.1, f kv.2) from
        if_pos (by simp [h])]
      rw [alookup_cons, alookup_cons, if_neg (by rw [h]; exact hkx),
        if_neg (by rw [h]; exact hkx)]
      exact ih
    · rw [show (if (kv.1 == key) = true then (kv.1, f kv.2) else kv) = kv from
        if_neg (by simp [h])]
      rw [alookup_cons, alookup_cons, ih]

theorem alookup_amodify_same {α : Type} (l : List (Nat × α)) (key : Nat) (f : α → α) :
    alookup (amodify l key f) key = (alookup l key).map f := by
  induction l with
  | nil => rfl
  | cons kv t ih =>
    simp only [amodify] at ih ⊢
    rw [List.map_cons]
    by_cases h : kv.1 = key
    · rw [show (if (kv.1 == key) = true then (kv.1, f kv.2) else kv) = (kv.1, f kv.2) from
        if_pos (by simp [h])]
      rw [alookup_cons, alookup_cons, if_pos h, if_pos h]
      rfl
    · rw [show (if (kv.1 == key) = true then (kv.1, f kv.2) else kv) = kv from
        if_neg (by simp [h])]
      rw [alookup_cons, alookup_cons, if_neg h, if_neg h]
      exact ih

/-! ### C1: set_variant / get_variant -/

/-- C1 (corrected): `set_index_type` never records the requested variant; it
only validates the name and discards the library's entry. Starting from the
empty engine state, `set_variant(0, "kdtree")` succeeds, yet
`get_variant(0)` afterwards is the default `"brute_force"`, not `"kdtree"`. -/
theorem claim1_counterexample :
    setIndexType {} 0 "kdtree" = .ok {} ∧
    getIndexType {} 0 = "brute_force" ∧ "brute_force" ≠ "kdtree" := by
  refine ⟨rfl, rfl, ?_⟩
  decide

/-- C1 (amended): after a successful `set_variant(L, v)` the engine holds no
entry for `L` at all, so `get_variant(L)` yields the system default
`"brute_force"` (not the declared `v`), and `search(L, ...)` returns empty
until a new index is built; an unknown variant name fails with
`UnknownVariant`, and the raise precedes the deletion so the mapping is
unchanged. -/
theorem claim1_set_variant {δ : Type} (lib : PyLib δ) (st : VSState) (L : Nat)
    (v : String) (q : List ℝ) (k : Nat) (metric : String)
    (mf : Option (List (String × Cond))) :
    (v ∈ indexTypeNames →
      setIndexType st L v = .ok { st with indexes := aerase st.indexes L } ∧
      getIndexType { st with indexes := aerase st.indexes L } L = "brute_force" ∧
      searchSimilarChunks lib { st with indexes := aerase st.indexes L } L q k metric mf
        = .ok []) ∧
    (v ∉ indexTypeNames → setIndexType st L v = .error .unknownVariant) := by
  constructor
  · intro hv
    refine ⟨by simp [setIndexType, hv], ?_, ?_⟩
    · simp [getIndexType, alookup_aerase]
    · simp [searchSimilarChunks, alookup_aerase]
  · intro hv
    simp [setIndexType, hv]

/-- Witness for C1 (amended) at the empty state with `v = "kdtree"` and
`v' = "hnsw"`. -/
theorem claim1_witness :
    (setIndexType {} 5 "kdtree" = .ok { indexes := aerase ({} : VSState).indexes 5 } ∧
      getIndexType { indexes := aerase ({} : VSState).indexes 5 } 5 = "brute_force" ∧
      searchSimilarChunks pyLib0 { indexes := aerase ({} : VSState).indexes 5 } 5
        [1] 3 "cosine" none = .ok []) ∧
    setIndexType {} 5 "hnsw" = .error .unknownVariant := by
  exact ⟨(claim1_set_variant pyLib0 {} 5 "kdtree" [1] 3 "cosine" none).1 (by decide),
    (claim1_set_variant pyLib0 {} 5 "hnsw" [1] 3 "cosine" none).2 (by decide)⟩

/-! ### C7: unknown metric handling -/

/-- C7 (corrected): with an unknown metric the kernel does raise for vectors
of nonzero norm — but for a zero-norm operand the zero-vector early return
fires first and yields `(1.0, 0.0)` without any error; and inside
`BruteForceIndex.search` the per-chunk `except Exception: continue` swallows
the `InvalidMetric` raise, so searching a non-empty built index with metric
`"manhattan"` returns `.ok []` instead of failing. -/
theorem claim7_counterexample :
    calcSim [(0 : ℝ)] [1] "manhattan" = .ok (1, 0) ∧
    bfSearch (bfIndex {} [⟨1, 0, "", [(1 : ℝ)], [], 0, 0⟩]) [(1 : ℝ)] 1 (some "manhattan")
      = .ok [] ∧
    (Except.ok ([] : List SearchHit) : Except VErr (List SearchHit)) ≠
      .error .invalidMetric := by
  have hz : Real.sqrt (sumSq [(0 : ℝ)]) = 0 := by simp [sumSq]
  have h1 : Real.sqrt (sumSq [(1 : ℝ)]) ≠ 0 := by
    refine ne_of_gt (Real.sqrt_pos.mpr ?_)
    norm_num [sumSq]
  refine ⟨calcSim_zero _ _ _ (Or.inl hz), ?_, by simp⟩
  have hcalc : calcSim [(1 : ℝ)] [(1 : ℝ)] "manhattan" = .error .invalidMetric :=
    calcSim_invalid _ _ _ h1 h1 (by simp)
  simp [bfSearch, bfIndex, hcalc]

/-- C7 (amended): for a metric outside the known set the kernel fails with
`InvalidMetric` whenever both operands have nonzero norm (zero-norm operands
take the early return instead); during a linear-index search the per-chunk
exception handler swallows that failure, so when the query and every indexed
chunk have nonzero norm the search returns `.ok []` — an empty success — for
any state and any `k`. -/
theorem claim7_invalid_metric (m : String)
    (hm : ¬ (m = "cosine" ∨ m = "euclidean" ∨ m = "dot_product")) :
    (∀ u v : List ℝ, Real.sqrt (sumSq u) ≠ 0 → Real.sqrt (sumSq v) ≠ 0 →
      calcSim u v m = .error .invalidMetric) ∧
    (∀ (s : BFState) (q : List ℝ) (k : Nat), Real.sqrt (sumSq q) ≠ 0 →
      (∀ c ∈ s.indexedChunks, Real.sqrt (sumSq c.embedding) ≠ 0) →
      bfSearch s q k (some m) = .ok []) := by
  constructor
  · intro u v hu hv
    exact calcSim_invalid u v m hu hv hm
  · intro s q k hq hc
    have hqne : q ≠ [] := by
      intro h
      rw [h] at hq
      simp [sumSq] at hq
    rw [bfSearch]
    by_cases h1 : s.isBuilt = false ∨ s.indexedChunks.isEmpty = true
    · rw [if_pos h1]
    · rw [if_neg h1, if_neg hqne]
      have hall : s.indexedChunks.filterMap (fun c =>
          match calcSim q c.embedding ((some m).getD s.similarityMetric) with
          | .ok (d, sim) => some (⟨c, d, sim⟩ : SearchHit)
          | .error _ => none) = [] := by
        rw [List.filterMap_eq_nil_iff]
        intro c hcm
        rw [Option.getD_some, calcSim_invalid q c.embedding m hq (hc c hcm) hm]
      simp only [Option.getD_some] at hall
      by_cases h2 : min k s.indexedChunks.length = 0
      · simp [h2]
      · simp [h2, hall, List.insertionSort]

/-- Witness for C7 at `m = "manhattan"` with a one-chunk index. -/
theorem claim7_witness :
    calcSim [(2 : ℝ)] [3] "manhattan" = .error .invalidMetric ∧
    bfSearch { similarityMetric := "cosine",
               indexedChunks := [⟨1, 0, "", [(1 : ℝ)], [], 0, 0⟩],
               isBuilt := true } [(1 : ℝ)] 4 (some "manhattan") = .ok [] := by
  have h2 : Real.sqrt (sumSq [(2 : ℝ)]) ≠ 0 :=
    ne_of_gt (Real.sqrt_pos.mpr (by norm_num [sumSq]))
  have h3 : Real.sqrt (sumSq [(3 : ℝ)]) ≠ 0 :=
    ne_of_gt (Real.sqrt_pos.mpr (by norm_num [sumSq]))
  have h1 : Real.sqrt (sumSq [(1 : ℝ)]) ≠ 0 :=
    ne_of_gt (Real.sqrt_pos.mpr (by norm_num [sumSq]))
  refine ⟨(claim7_invalid_metric "manhattan" (by simp)).1 _ _ h2 h3,
    (claim7_invalid_metric "manhattan" (by simp)).2 _ _ _ h1 ?_⟩
  intro c hcm
  simp only [List.mem_singleton] at hcm
  rw [hcm]
  exact h1

/-! ### C10: service-layer library name policy -/

/-- C10 (confirmed): `LibraryService.create_library` rejects (with a
validation error) names shorter than 3 characters after stripping, names with
surrounding whitespace, and names equal (case-insensitively) to an existing
library's name; requests passing all three checks are delegated verbatim to
the repository. -/
theorem claim10_name_policy (repo : RepoState) (name : String)
    (metadata : List (String × JVal)) (newId : Nat) (now : Nat) :
    (((strTrim name).length < 3 ∨ strTrim name ≠ name ∨
      ((getAllLibraries repo).any fun lib => lib.name.toLower == name.toLower) = true) →
      serviceCreateLibrary repo name metadata newId now = .error .validation) ∧
    (¬ (strTrim name).length < 3 → strTrim name = name →
      ((getAllLibraries repo).any fun lib => lib.name.toLower == name.toLower) = false →
      serviceCreateLibrary repo name metadata newId now =
        repoCreateLibrary repo name metadata newId now) := by
  constructor
  · rintro (h | h | h)
    · simp [serviceCreateLibrary, h]
    · by_cases h1 : (strTrim name).length < 3
      · simp [serviceCreateLibrary, h1]
      · simp [serviceCreateLibrary, h1, h]
    · by_cases h1 : (strTrim name).length < 3
      · simp [serviceCreateLibrary, h1]
      · by_cases h2 : strTrim name = name
        · simp [serviceCreateLibrary, h1, h2, h]
        · simp [serviceCreateLibrary, h1, h2]
  · intro h1 h2 h3
    rw [serviceCreateLibrary, if_neg h1, if_neg (not_not_intro h2), if_neg (by simp [h3])]

/-- Witness for C10: `"ab"` is rejected, `"abc"` reaches the repository. -/
theorem claim10_witness :
    serviceCreateLibrary {} "ab" [] 1 0 = .error .validation ∧
    serviceCreateLibrary {} "abc" [] 1 0 = repoCreateLibrary {} "abc" [] 1 0 := by
  exact ⟨(claim10_name_policy {} "ab" [] 1 0).1 (Or.inl (by decide)),
    (claim10_name_policy {} "abc" [] 1 0).2 (by decide) (by decide) (by decide)⟩

/-! ### C6: build-time dimension validation -/

/-- C6 (corrected): the linear variant's `index` performs no dimension check
at all — building it over chunks of dimensions 1 and 2 succeeds, sets the
built flag and installs both chunks, where the claim expects a
`DimensionMismatch` failure. -/
theorem claim6_counterexample :
    (bfIndex {} [⟨1, 0, "", [(1 : ℝ)], [], 0, 0⟩, ⟨2, 0, "", [2, 3], [], 0, 0⟩]).isBuilt
      = true ∧
    (bfIndex {} [⟨1, 0, "", [(1 : ℝ)], [], 0, 0⟩,
      ⟨2, 0, "", [2, 3], [], 0, 0⟩]).indexedChunks.length = 2 ∧
    ¬ (∀ c ∈ (bfIndex {} [⟨1, 0, "", [(1 : ℝ)], [], 0, 0⟩,
        ⟨2, 0, "", [2, 3], [], 0, 0⟩]).indexedChunks,
        c.embedding.length = 1) := by
  refine ⟨rfl, rfl, fun h => ?_⟩
  have := h ⟨2, 0, "", [2, 3], [], 0, 0⟩ (by simp [bfIndex])
  simp at this

/-- C6 (amended): only the KD-tree variant validates dimensions: on mixed
dimensions its build records the first chunk's dimension and fails with
`DimensionMismatch`, leaving the previous contents uninstalled; on uniform
nonzero dimension it installs the chunks and sets the built flag. The linear
variant installs any chunk list unconditionally, with no dimension check. -/
theorem claim6_build_validation (s : BFState) (ks : KDState) (c0 : Chunk)
    (rest : List Chunk) :
    ((¬ ∀ c ∈ c0 :: rest, c.embedding.length = c0.embedding.length) →
      kdIndexRun ks (c0 :: rest) =
        ({ ks with dimensions := c0.embedding.length }, some .dimensionMismatch)) ∧
    ((∀ c ∈ c0 :: rest, c.embedding.length = c0.embedding.length) →
      c0.embedding.length ≠ 0 →
      kdIndexRun ks (c0 :: rest) =
        ({ ks with dimensions := c0.embedding.length, indexedChunks := c0 :: rest,
                   root := buildTree c0.embedding.length (c0 :: rest) 0, isBuilt := true },
         none)) ∧
    (bfIndex s (c0 :: rest)).indexedChunks = c0 :: rest ∧
    (bfIndex s (c0 :: rest)).isBuilt = true := by
  refine ⟨?_, ?_, rfl, rfl⟩
  · intro hne
    have hall : ¬ ((c0 :: rest).all fun c => c.embedding.length = c0.embedding.length) = true := by
      simp only [List.all_eq_true, decide_eq_true_eq]
      exact hne
    simp only [kdIndexRun, if_neg hall]
  · intro hu hd0
    have hall : ((c0 :: rest).all fun c => c.embedding.length = c0.embedding.length) = true := by
      simp only [List.all_eq_true, decide_eq_true_eq]
      exact hu
    simp only [kdIndexRun, if_pos hall, if_neg hd0]

/-- Witness for C6: a mixed-dimension build fails on the KD-tree, a uniform
one succeeds. -/
theorem claim6_witness :
    kdIndexRun {} [⟨1, 0, "", [(1 : ℝ)], [], 0, 0⟩, ⟨2, 0, "", [2, 3], [], 0, 0⟩] =
      (({ similarityMetric := "cosine", indexedChunks := [], isBuilt := false,
          root := .leaf, dimensions := 1 } : KDState), some .dimensionMismatch) ∧
    kdIndexRun {} [⟨1, 0, "", [(5 : ℝ)], [], 0, 0⟩] =
      (({ similarityMetric := "cosine",
          indexedChunks := [⟨1, 0, "", [(5 : ℝ)], [], 0, 0⟩], isBuilt := true,
          root := buildTree 1 [⟨1, 0, "", [(5 : ℝ)], [], 0, 0⟩] 0,
          dimensions := 1 } : KDState),
       none) := by
  constructor
  · exact (claim6_build_validation {} {} ⟨1, 0, "", [(1 : ℝ)], [], 0, 0⟩
      [⟨2, 0, "", [2, 3], [], 0, 0⟩]).1
      (fun h => by
        have := h ⟨2, 0, "", [2, 3], [], 0, 0⟩ (by simp)
        simp at this)
  · exact (claim6_build_validation {} {} ⟨1, 0, "", [(5 : ℝ)], [], 0, 0⟩ []).2.1
      (by intro c hc; simp at hc; rw [hc]) (by simp)

/-! ### C8: partial updates and the frame -/

/-- Projections preserved by every step of a fold are preserved by the fold. -/
theorem foldl_proj {α υ β : Type} (f : α → υ → α) (g : α → β) (upds : List υ)
    (d : α) (h : ∀ (x : α) (u : υ), u ∈ upds → g (f x u) = g x) :
    g (upds.foldl f d) = g d := by
  induction upds generalizing d with
  | nil => rfl
  | cons u t ih =>
    rw [List.foldl_cons, ih _ (fun x u' hu => h x u' (List.mem_cons_of_mem _ hu)),
      h d u (List.mem_cons_self _ _)]

/-- C8 (corrected): the update exclusion lists are only
`['id', 'created_at', 'chunks']` (documents) and `['id', 'created_at']`
(chunks), so an update that names the parentage field rewrites it: updating
document 7 with `library_id := 9` changes its library back-reference from 5
to 9. -/
theorem claim8_counterexample :
    ((updateDocument ⟨[], [(7, ⟨7, "t", none, [], 5, [], 0, none⟩)], [], [], [], [], []⟩ 7
        [DocumentUpd.libraryId 9]).2.map Document.libraryId) = some 9 ∧ (9 : Nat) ≠ 5 := by
  exact ⟨rfl, by decide⟩

/-- C8 (amended): every update preserves `id` and `created_at`, and every
field it does not name — including parentage — is unchanged; but parentage
(`library_id` of a document, `document_id` of a chunk) is only preserved when
the update does not name it, since it is absent from the exclusion lists.
(The snapshot's derived `chunks`/`documents` collections are recomputed by
the read path and are not part of the stored frame.) -/
theorem claim8_update_frame :
    (∀ (st : RepoState) (did : Nat) (upds : List DocumentUpd) (d : Document),
      alookup st.documents did = some d →
      ∃ d', (updateDocument st did upds).2 = some d' ∧
        d'.id = d.id ∧ d'.createdAt = d.createdAt ∧
        ((∀ v, DocumentUpd.libraryId v ∉ upds) → d'.libraryId = d.libraryId) ∧
        ((∀ v, DocumentUpd.title v ∉ upds) → d'.title = d.title) ∧
        ((∀ v, DocumentUpd.content v ∉ upds) → d'.content = d.content) ∧
        ((∀ v, DocumentUpd.metadata v ∉ upds) → d'.metadata = d.metadata) ∧
        ((∀ v, DocumentUpd.updatedAt v ∉ upds) → d'.updatedAt = d.updatedAt)) ∧
    (∀ (st : RepoState) (cid : Nat) (upds : List ChunkUpd) (c : Chunk),
      alookup st.chunks cid = some c →
      ∃ c', (updateChunk st cid upds).2 = some c' ∧
        c'.id = c.id ∧ c'.createdAt = c.createdAt ∧
        ((∀ v, ChunkUpd.documentId v ∉ upds) → c'.documentId = c.documentId) ∧
        ((∀ v, ChunkUpd.text v ∉ upds) → c'.text = c.text) ∧
        ((∀ v, ChunkUpd.embedding v ∉ upds) → c'.embedding = c.embedding) ∧
        ((∀ v, ChunkUpd.metadata v ∉ upds) → c'.metadata = c.metadata) ∧
        ((∀ v, ChunkUpd.updatedAt v ∉ upds) → c'.updatedAt = c.updatedAt)) ∧
    (∀ (st : RepoState) (lid : Nat) (upds : List LibraryUpd) (l : Library),
      alookup st.libraries lid = some l →
      ∃ l', (updateLibrary st lid upds).2 = some l' ∧
        l'.id = l.id ∧ l'.createdAt = l.createdAt ∧
        ((∀ v, LibraryUpd.name v ∉ upds) → l'.name = l.name) ∧
        ((∀ v, LibraryUpd.metadata v ∉ upds) → l'.metadata = l.metadata)) := by
  refine ⟨?_, ?_, ?_⟩
  · intro st did upds d hd
    simp only [updateDocument, hd, getDocument, alookup_aset_same]
    refine ⟨_, rfl, ?_, ?_, ?_, ?_, ?_, ?_, ?_⟩
    · exact foldl_proj _ Document.id upds d (fun x u _ => by cases u <;> rfl)
    · exact foldl_proj _ Document.createdAt upds d (fun x u _ => by cases u <;> rfl)
    · intro h
      exact foldl_proj _ Document.libraryId upds d
        (fun x u hu => by cases u <;> first | rfl | exact absurd hu (h _))
    · intro h
      exact foldl_proj _ Document.title upds d
        (fun x u hu => by cases u <;> first | rfl | exact absurd hu (h _))
    · intro h
      exact foldl_proj _ Document.content upds d
        (fun x u hu => by cases u <;> first | rfl | exact absurd hu (h _))
    · intro h
      exact foldl_proj _ Document.metadata upds d
        (fun x u hu => by cases u <;> first | rfl | exact absurd hu (h _))
    · intro h
      exact foldl_proj _ Document.updatedAt upds d
        (fun x u hu => by cases u <;> first | rfl | exact absurd hu (h _))
  · intro st cid upds c hc
    simp only [updateChunk, hc, getChunk, alookup_aset_same]
    refine ⟨_, rfl, ?_, ?_, ?_, ?_, ?_, ?_, ?_⟩
    · exact foldl_proj _ Chunk.id upds c (fun x u _ => by cases u <;> rfl)
    · exact foldl_proj _ Chunk.createdAt upds c (fun x u _ => by cases u <;> rfl)
    · intro h
      exact foldl_proj _ Chunk.documentId upds c
        (fun x u hu => by cases u <;> first | rfl | exact absurd hu (h _))
    · intro h
      exact foldl_proj _ Chunk.text upds c
        (fun x u hu => by cases u <;> first | rfl | exact absurd hu (h _))
    · intro h
      exact foldl_proj _ Chunk.embedding upds c
        (fun x u hu => by cases u <;> first | rfl | exact absurd hu (h _))
    · intro h
      exact foldl_proj _ Chunk.metadata upds c
        (fun x u hu => by cases u <;> first | rfl | exact absurd hu (h _))
    · intro h
      exact foldl_proj _ Chunk.updatedAt upds c
        (fun x u hu => by cases u <;> first | rfl | exact absurd hu (h _))
  · intro st lid upds l hl
    simp only [updateLibrary, hl, getLibrary, alookup_aset_same]
    refine ⟨_, rfl, ?_, ?_, ?_, ?_⟩
    · exact foldl_proj _ Library.id upds l (fun x u _ => by cases u <;> rfl)
    · exact foldl_proj _ Library.createdAt upds l (fun x u _ => by cases u <;> rfl)
    · intro h
      exact foldl_proj _ Library.name upds l
        (fun x u hu => by cases u <;> first | rfl | exact absurd hu (h _))
    · intro h
      exact foldl_proj _ Library.metadata upds l
        (fun x u hu => by cases u <;> first | rfl | exact absurd hu (h _))

/-- Witness for C8: updating document 7's title preserves id, creation time
and the library back-reference. -/
theorem claim8_witness :
    ∃ d', (updateDocument ⟨[], [(7, ⟨7, "t", none, [], 5, [], 0, none⟩)], [], [], [], [], []⟩ 7
        [DocumentUpd.title "new"]).2 = some d' ∧
      d'.id = 7 ∧ d'.createdAt = 0 ∧ d'.libraryId = 5 := by
  obtain ⟨d', heq, hid, hca, hlib, -⟩ :=
    claim8_update_frame.1 ⟨[], [(7, ⟨7, "t", none, [], 5, [], 0, none⟩)], [], [], [], [], []⟩ 7
      [DocumentUpd.title "new"] ⟨7, "t", none, [], 5, [], 0, none⟩ rfl
  exact ⟨d', heq, hid, hca, hlib (by intro v hv; simp at hv)⟩

/-! ### C9: search result bounds and ordering -/

theorem sorted_take {l : List SearchHit} (hs : l.Sorted hitLe) (n : Nat) :
    (l.take n).Sorted hitLe :=
  hs.sublist (List.take_sublist n l)

theorem bfSearch_ok_bounds (s : BFState) (q : List ℝ) (k : Nat)
    (mo : Option String) (res : List SearchHit) (h : bfSearch s q k mo = .ok res) :
    res.length ≤ min k s.indexedChunks.length ∧ res.Sorted hitLe := by
  rw [bfSearch] at h
  by_cases h1 : s.isBuilt = false ∨ s.indexedChunks.isEmpty = true
  · rw [if_pos h1] at h
    cases h
    simp [List.Sorted]
  · rw [if_neg h1] at h
    by_cases h2 : q = []
    · rw [if_pos h2] at h
      cases h
    · rw [if_neg h2] at h
      by_cases h3 : min k s.indexedChunks.length = 0
      · rw [if_pos h3] at h
        cases h
        simp [List.Sorted]
      · rw [if_neg h3] at h
        cases h
        constructor
        · exact le_trans (List.length_take_le _ _) (le_refl _)
        · exact sorted_take (List.sorted_insertionSort hitLe _) _

theorem visitChunk_sorted (q : List ℝ) (k : Nat) (m : String) (c : Chunk)
    (best : List SearchHit) (hs : best.Sorted hitLe) :
    (visitChunk q k m c best).Sorted hitLe := by
  rw [visitChunk]
  cases hcalc : calcSim q c.embedding m with
  | error e => exact hs
  | ok p =>
    obtain ⟨d, sim⟩ := p
    dsimp only
    by_cases h1 : best.length < k
    · rw [if_pos h1]
      exact List.sorted_insertionSort hitLe _
    · rw [if_neg h1]
      by_cases h2 : d < worstDistance best
      · rw [if_pos h2]
        exact List.sorted_insertionSort hitLe _
      · rw [if_neg h2]
        exact hs

theorem visitChunk_length_le (q : List ℝ) (k : Nat) (m : String) (c : Chunk)
    (best : List SearchHit) (hk : 1 ≤ k) (h : best.length ≤ k) :
    (visitChunk q k m c best).length ≤ k := by
  rw [visitChunk]
  cases hcalc : calcSim q c.embedding m with
  | error e => exact h
  | ok p =>
    obtain ⟨d, sim⟩ := p
    dsimp only
    by_cases h1 : best.length < k
    · rw [if_pos h1]
      rw [List.length_insertionSort, List.length_append, List.length_singleton]
      omega
    · rw [if_neg h1]
      by_cases h2 : d < worstDistance best
      · rw [if_pos h2]
        rw [List.length_insertionSort, List.length_append, List.length_singleton,
          List.length_dropLast]
        omega
      · rw [if_neg h2]
        exact h

theorem searchNode_invariant (q : List ℝ) (k : Nat) (m : String) (hk : 1 ≤ k)
    (t : KDTree) : ∀ best : List SearchHit, best.Sorted hitLe → best.length ≤ k →
    (searchNode q k m t best).Sorted hitLe ∧ (searchNode q k m t best).length ≤ k := by
  induction t with
  | leaf =>
    intro best hs hl
    exact ⟨hs, hl⟩
  | node l c axis r ihl ihr =>
    intro best hs hl
    have h1s := visitChunk_sorted q k m c best hs
    have h1l := visitChunk_length_le q k m c best hk hl
    simp only [searchNode]
    by_cases hdiff : q.getD axis 0 - c.embedding.getD axis 0 ≤ 0
    · rw [if_pos hdiff]
      obtain ⟨h2s, h2l⟩ := ihl (visitChunk q k m c best) h1s h1l
      by_cases hvisit : (searchNode q k m l (visitChunk q k m c best)).length < k ∨
          |q.getD axis 0 - c.embedding.getD axis 0| <
            worstDistance (searchNode q k m l (visitChunk q k m c best))
      · rw [if_pos hvisit]
        exact ihr _ h2s h2l
      · rw [if_neg hvisit]
        exact ⟨h2s, h2l⟩
    · rw [if_neg hdiff]
      obtain ⟨h2s, h2l⟩ := ihr (visitChunk q k m c best) h1s h1l
      by_cases hvisit : (searchNode q k m r (visitChunk q k m c best)).length < k ∨
          |q.getD axis 0 - c.embedding.getD axis 0| <
            worstDistance (searchNode q k m r (visitChunk q k m c best))
      · rw [if_pos hvisit]
        exact ihl _ h2s h2l
      · rw [if_neg hvisit]
        exact ⟨h2s, h2l⟩

theorem kdSearch_ok_bounds (s : KDState) (q : List ℝ) (k : Nat)
    (mo : Option String) (res : List SearchHit) (h : kdSearch s q k mo = .ok res) :
    res.length ≤ min k s.indexedChunks.length ∧ res.Sorted hitLe := by
  rw [kdSearch] at h
  by_cases h1 : s.isBuilt = false ∨ s.root.isLeaf
  · rw [if_pos h1] at h
    cases h
    simp [List.Sorted]
  · rw [if_neg h1] at h
    by_cases h2 : q = []
    · rw [if_pos h2] at h
      cases h
    · rw [if_neg h2] at h
      by_cases h3 : q.length ≠ s.dimensions
      · rw [if_pos h3] at h
        cases h
      · rw [if_neg h3] at h
        by_cases h4 : min k s.indexedChunks.length = 0
        · rw [if_pos h4] at h
          cases h
          simp [List.Sorted]
        · rw [if_neg h4] at h
          cases h
          obtain ⟨hs, hl⟩ := searchNode_invariant q (min k s.indexedChunks.length)
            (mo.getD s.similarityMetric) (by omega) s.root []
            (by simp [List.Sorted]) (by simp)
          exact ⟨hl, hs⟩

theorem kdIndexRun_ok_chunks (ks0 st' : KDState) (C : List Chunk)
    (h : kdIndexRun ks0 C = (st', none)) : st'.indexedChunks = C := by
  cases C with
  | nil =>
    rw [kdIndexRun] at h
    cases h
    rfl
  | cons c0 rest =>
    rw [kdIndexRun] at h
    by_cases hall : ((c0 :: rest).all fun c => c.embedding.length = c0.embedding.length) = true
    · rw [if_pos hall] at h
      by_cases hd : c0.embedding.length = 0
      · rw [if_pos hd] at h
        exact absurd (congrArg Prod.snd h) (by simp)
      · rw [if_neg hd] at h
        cases h
        rfl
    · rw [if_neg hall] at h
      exact absurd (congrArg Prod.snd h) (by simp)

/-- C9 (confirmed): for both variants, a search after a successful build
returns at most `min k |C|` hits, and the returned sequence is sorted
ascending by distance. -/
theorem claim9_search_bounds :
    (∀ (s0 : BFState) (C : List Chunk) (q : List ℝ) (k : Nat) (mo : Option String)
      (res : List SearchHit), 1 ≤ k → bfSearch (bfIndex s0 C) q k mo = .ok res →
      res.length ≤ min k C.length ∧ res.Sorted hitLe) ∧
    (∀ (ks0 st' : KDState) (C : List Chunk) (q : List ℝ) (k : Nat) (mo : Option String)
      (res : List SearchHit), 1 ≤ k → kdIndexRun ks0 C = (st', none) →
      kdSearch st' q k mo = .ok res →
      res.length ≤ min k C.length ∧ res.Sorted hitLe) := by
  constructor
  · intro s0 C q k mo res _ h
    exact bfSearch_ok_bounds _ q k mo res h
  · intro ks0 st' C q k mo res _ hbuild h
    have := kdSearch_ok_bounds st' q k mo res h
    rwa [kdIndexRun_ok_chunks ks0 st' C hbuild] at this

/-- Witness for C9: searching a freshly built one-chunk linear index and a
freshly built one-chunk KD-tree. -/
theorem claim9_witness :
    (∀ res, bfSearch (bfIndex {} [⟨1, 0, "", [(2 : ℝ)], [], 0, 0⟩]) [(1 : ℝ)] 3 none
      = .ok res → res.length ≤ min 3 1 ∧ res.Sorted hitLe) ∧
    (∀ res, kdSearch (kdIndexRun {} [⟨1, 0, "", [(2 : ℝ)], [], 0, 0⟩]).1 [(1 : ℝ)] 3 none
      = .ok res → res.length ≤ min 3 1 ∧ res.Sorted hitLe) := by
  constructor
  · intro res h
    exact (claim9_search_bounds.1 {} [⟨1, 0, "", [(2 : ℝ)], [], 0, 0⟩] [(1 : ℝ)] 3 none res
      (by omega) h)
  · intro res h
    exact (claim9_search_bounds.2 {} (kdIndexRun {} [⟨1, 0, "", [(2 : ℝ)], [], 0, 0⟩]).1
      [⟨1, 0, "", [(2 : ℝ)], [], 0, 0⟩] [(1 : ℝ)] 3 none res (by omega) (by rfl) h)

/-! ### C3: query-engine search contract -/

theorem idxSearch_ok_sorted (idx : IdxInst) (q : List ℝ) (k : Nat)
    (mo : Option String) (res : List SearchHit) (h : idxSearch idx q k mo = .ok res) :
    res.Sorted hitLe := by
  cases idx with
  | bf s => exact (bfSearch_ok_bounds s q k mo res h).2
  | kd s => exact (kdSearch_ok_bounds s q k mo res h).2

theorem filterLoop_eq {δ : Type} (lib : PyLib δ) (f : List (String × Cond)) (k : Nat) :
    ∀ (l acc : List SearchHit), acc.length < k →
      (∀ r ∈ l, applyFilter lib r.chunk.metadata f ≠ none) →
      filterLoop lib f k acc l = .ok (acc ++
        (l.filter fun r => decide (applyFilter lib r.chunk.metadata f = some true)).take
          (k - acc.length)) := by
  intro l
  induction l with
  | nil =>
    intro acc h hc
    simp [filterLoop]
  | cons r rs ih =>
    intro acc h hc
    rw [filterLoop]
    have hr0 : applyFilter lib r.chunk.metadata f ≠ none :=
      hc r (List.mem_cons_self _ _)
    have hcrest : ∀ x ∈ rs, applyFilter lib x.chunk.metadata f ≠ none :=
      fun x hx => hc x (List.mem_cons_of_mem _ hx)
    by_cases hp : applyFilter lib r.chunk.metadata f = some true
    · rw [hp]
      dsimp only
      rw [show List.filter
            (fun x => decide (applyFilter lib x.chunk.metadata f = some true)) (r :: rs)
          = r :: List.filter
            (fun x => decide (applyFilter lib x.chunk.metadata f = some true)) rs from by
        rw [List.filter_cons]
        exact if_pos (by simpa using hp)]
      by_cases hfull : k ≤ (acc ++ [r]).length
      · rw [if_pos hfull]
        have hlen : k - acc.length = 1 := by
          rw [List.length_append, List.length_singleton] at hfull
          omega
        rw [hlen, List.take_succ_cons, List.take_zero]
      · rw [if_neg hfull]
        have hlt : (acc ++ [r]).length < k := by
          rw [List.length_append, List.length_singleton] at hfull ⊢
          omega
        rw [ih _ hlt hcrest]
        have hsub : k - acc.length = (k - (acc ++ [r]).length) + 1 := by
          rw [List.length_append, List.length_singleton] at hfull ⊢
          omega
        rw [hsub, List.take_succ_cons, List.append_assoc]
        rfl
    · have hfalse : applyFilter lib r.chunk.metadata f = some false := by
        rcases ho : applyFilter lib r.chunk.metadata f with _ | b
        · exact absurd ho hr0
        · cases b
          · rfl
          · exact absurd ho hp
      rw [hfalse]
      dsimp only
      rw [show List.filter
            (fun x => decide (applyFilter lib x.chunk.metadata f = some true)) (r :: rs)
          = List.filter
            (fun x => decide (applyFilter lib x.chunk.metadata f = some true)) rs from by
        rw [List.filter_cons]
        exact if_neg (by simp [hp])]
      exact ih _ h hcrest

/-- C3 (confirmed): for every standard-library semantics, the engine search
returns empty when the library has no active index; with a filter set it
requests `3k` hits from the index and, on a successful fetch whose filter
evaluation raises no exception, returns exactly the first `k` filter-matching
hits in index order — which is at most `k` hits, all satisfying the filter,
sorted ascending by distance; with no filter it returns the first `k` hits. -/
theorem claim3_engine_search {δ : Type} (lib : PyLib δ) (st : VSState) (L : Nat)
    (q : List ℝ) (k : Nat) (metric : String) (f : List (String × Cond)) (hk : 1 ≤ k) :
    (alookup st.indexes L = none →
      ∀ mf, searchSimilarChunks lib st L q k metric mf = .ok []) ∧
    (∀ t idx hits, alookup st.indexes L = some (t, idx) →
      idxSearch idx q (k * 3) (some metric) = .ok hits →
      (∀ r ∈ hits, applyFilter lib r.chunk.metadata f ≠ none) →
      searchSimilarChunks lib st L q k metric (some f) =
        .ok ((hits.filter fun r =>
          decide (applyFilter lib r.chunk.metadata f = some true)).take k) ∧
      ((hits.filter fun r =>
          decide (applyFilter lib r.chunk.metadata f = some true)).take k).length ≤ k ∧
      (∀ r ∈ (hits.filter fun r =>
          decide (applyFilter lib r.chunk.metadata f = some true)).take k,
        applyFilter lib r.chunk.metadata f = some true) ∧
      ((hits.filter fun r =>
          decide (applyFilter lib r.chunk.metadata f = some true)).take k).Sorted
        hitLe) ∧
    (∀ t idx hits, alookup st.indexes L = some (t, idx) →
      idxSearch idx q k (some metric) = .ok hits →
      searchSimilarChunks lib st L q k metric none = .ok (hits.take k)) := by
  refine ⟨?_, ?_, ?_⟩
  · intro hnone mf
    simp [searchSimilarChunks, hnone]
  · intro t idx hits hsome hfetch hclean
    have hover : (if (some f).isSome then k * 3 else k) = k * 3 := by simp
    refine ⟨?_, ?_, ?_, ?_⟩
    · simp only [searchSimilarChunks, hsome, hover, hfetch]
      rw [filterLoop_eq lib f k hits [] (by simpa using hk) hclean]
      simp
    · exact List.length_take_le _ _
    · intro r hr
      have h1 : r ∈ (hits.filter fun x =>
          decide (applyFilter lib x.chunk.metadata f = some true)) :=
        List.mem_of_mem_take hr
      have h2 := (List.mem_filter.mp h1).2
      simpa using h2
    · exact sorted_take ((idxSearch_ok_sorted idx q (k * 3) (some metric) hits
        hfetch).sublist (List.filter_sublist _)) k
  · intro t idx hits hsome hfetch
    have hover : (if (none : Option (List (String × Cond))).isSome then k * 3 else k)
        = k := by simp
    simp only [searchSimilarChunks, hsome, hover, hfetch]

/-- Witness for C3 at a one-entry engine whose instance is an unbuilt linear
index (its search returns `.ok []`), plus the no-index case. -/
theorem claim3_witness :
    searchSimilarChunks pyLib0 {} 9 [(1 : ℝ)] 2 "cosine" none = .ok [] ∧
    searchSimilarChunks pyLib0 { indexes := [(9, ("brute_force", .bf {}))] } 9
      [(1 : ℝ)] 2 "cosine" (some [("x", .bare (.n 1))]) = .ok [] ∧
    searchSimilarChunks pyLib0 { indexes := [(9, ("brute_force", .bf {}))] } 9
      [(1 : ℝ)] 2 "cosine" none = .ok [] := by
  refine ⟨(claim3_engine_search pyLib0 {} 9 [(1 : ℝ)] 2 "cosine" []
    (by omega)).1 rfl none, ?_, ?_⟩
  · have h := (claim3_engine_search pyLib0
      { indexes := [(9, ("brute_force", .bf {}))] } 9
      [(1 : ℝ)] 2 "cosine" [("x", .bare (.n 1))] (by omega)).2.1 "brute_force" (.bf {})
      [] rfl (by rfl) (fun r hr => absurd hr (List.not_mem_nil r))
    simpa using h.1
  · exact (claim3_engine_search pyLib0 { indexes := [(9, ("brute_force", .bf {}))] } 9
      [(1 : ℝ)] 2 "cosine" [] (by omega)).2.2 "brute_force" (.bf {}) [] rfl (by rfl)

/-! ### C4: cascade deletion -/

theorem alookup_isSome_iff {α : Type} (l : List (Nat × α)) (key : Nat) :
    (alookup l key).isSome = true ↔ key ∈ l.map Prod.fst := by
  induction l with
  | nil => simp [alookup]
  | cons kv t ih =>
    by_cases h : kv.1 = key
    · simp [alookup_cons, h]
    · simp only [alookup_cons, if_neg h, List.map_cons, List.mem_cons, ih]
      constructor
      · intro hh
        exact Or.inr hh
      · rintro (hh | hh)
        · exact absurd hh.symm h
        · exact hh

theorem aerase_cons {α : Type} (kv : Nat × α) (t : List (Nat × α)) (key : Nat) :
    aerase (kv :: t) key = if kv.1 = key then aerase t key else kv :: aerase t key := by
  by_cases h : kv.1 = key <;> simp [aerase, List.filter_cons, h]

theorem aerase_of_not_mem {α : Type} (l : List (Nat × α)) (key : Nat)
    (h : key ∉ l.map Prod.fst) : aerase l key = l := by
  induction l with
  | nil => rfl
  | cons kv t ih =>
    rw [List.map_cons, List.mem_cons] at h
    push_neg at h
    rw [aerase_cons, if_neg (fun he => h.1 he.symm), ih h.2]

theorem aerase_keys_nodup {α : Type} (l : List (Nat × α)) (key : Nat)
    (h : (l.map Prod.fst).Nodup) : ((aerase l key).map Prod.fst).Nodup :=
  h.sublist ((List.filter_sublist l).map Prod.fst)

theorem length_aerase {α : Type} (l : List (Nat × α)) (key : Nat)
    (hnd : (l.map Prod.fst).Nodup) (hp : (alookup l key).isSome) :
    (aerase l key).length + 1 = l.length := by
  induction l with
  | nil => simp [alookup] at hp
  | cons kv t ih =>
    rw [List.map_cons, List.nodup_cons] at hnd
    by_cases h : kv.1 = key
    · rw [aerase_cons, if_pos h, aerase_of_not_mem t key (h ▸ hnd.1), List.length_cons]
    · rw [aerase_cons, if_neg h, List.length_cons, List.length_cons]
      have hp' : (alookup t key).isSome := by
        rw [alookup_cons, if_neg h] at hp
        exact hp
      rw [ih hnd.2 hp']

/-- Field effects of one `_delete_chunk_internal` call on a present chunk
whose back-reference points at `did`. -/
theorem dci_effect (st : RepoState) (cid did : Nat)
    (hp : (alookup st.chunks cid).isSome)
    (hcd : alookup st.chunkDocument cid = some did) :
    (deleteChunkInternal st cid).1.libraries = st.libraries ∧
    (deleteChunkInternal st cid).1.documents = st.documents ∧
    (deleteChunkInternal st cid).1.libraryDocuments = st.libraryDocuments ∧
    (deleteChunkInternal st cid).1.documentLibrary = st.documentLibrary ∧
    (deleteChunkInternal st cid).1.chunks = aerase st.chunks cid ∧
    (∀ d, d ≠ did → alookup (deleteChunkInternal st cid).1.documentChunks d
      = alookup st.documentChunks d) ∧
    (deleteChunkInternal st cid).1.chunkDocument = aerase st.chunkDocument cid := by
  have hguard : ¬ (alookup st.chunks cid).isSome = false := by simp [hp]
  simp only [deleteChunkInternal, if_neg hguard, hcd]
  by_cases hset : (alookup st.documentChunks did).isSome
  · rw [if_pos hset]
    refine ⟨rfl, rfl, rfl, rfl, rfl, ?_, rfl⟩
    intro d hd
    exact alookup_amodify_other _ _ _ _ hd
  · rw [if_neg hset]
    exact ⟨rfl, rfl, rfl, rfl, rfl, fun d _ => rfl, rfl⟩

/-- Effects of the chunk-deletion loop over a duplicate-free id set whose
members exist and point back at `did`. -/
theorem deleteChunksFold_effect (did : Nat) :
    ∀ (chs : List Nat) (st : RepoState),
    (∀ cid ∈ chs, (alookup st.chunks cid).isSome ∧
      alookup st.chunkDocument cid = some did) →
    chs.Nodup → (st.chunks.map Prod.fst).Nodup →
    (deleteChunksFold st chs).libraries = st.libraries ∧
    (deleteChunksFold st chs).documents = st.documents ∧
    (deleteChunksFold st chs).libraryDocuments = st.libraryDocuments ∧
    (deleteChunksFold st chs).documentLibrary = st.documentLibrary ∧
    (∀ cid ∈ chs, alookup (deleteChunksFold st chs).chunks cid = none) ∧
    (∀ x, x ∉ chs → alookup (deleteChunksFold st chs).chunks x = alookup st.chunks x) ∧
    ((deleteChunksFold st chs).chunks.map Prod.fst).Nodup ∧
    (deleteChunksFold st chs).chunks.length + chs.length = st.chunks.length ∧
    (∀ d, d ≠ did → alookup (deleteChunksFold st chs).documentChunks d
      = alookup st.documentChunks d) ∧
    (∀ x, x ∉ chs → alookup (deleteChunksFold st chs).chunkDocument x
      = alookup st.chunkDocument x) := by
  intro chs
  induction chs with
  | nil =>
    intro st _ _ hknd
    exact ⟨rfl, rfl, rfl, rfl, by simp, fun x _ => rfl, hknd, by simp [deleteChunksFold],
      fun d _ => rfl, fun x _ => rfl⟩
  | cons c0 rest ih =>
    intro st hpre hnd hknd
    have hfold : deleteChunksFold st (c0 :: rest)
        = deleteChunksFold (deleteChunkInternal st c0).1 rest := rfl
    obtain ⟨hc0p, hc0d⟩ := hpre c0 (List.mem_cons_self _ _)
    obtain ⟨e1, e2, e3, e4, e5, e6, e7⟩ := dci_effect st c0 did hc0p hc0d
    have hndrest : rest.Nodup := (List.nodup_cons.mp hnd).2
    have hc0notin : c0 ∉ rest := (List.nodup_cons.mp hnd).1
    have hpre' : ∀ cid ∈ rest, (alookup (deleteChunkInternal st c0).1.chunks cid).isSome ∧
        alookup (deleteChunkInternal st c0).1.chunkDocument cid = some did := by
      intro cid hcid
      have hne : cid ≠ c0 := fun he => hc0notin (he ▸ hcid)
      obtain ⟨hq, hqd⟩ := hpre cid (List.mem_cons_of_mem _ hcid)
      rw [e5, alookup_aerase_other _ _ _ hne, e7, alookup_aerase_other _ _ _ hne]
      exact ⟨hq, hqd⟩
    have hknd1 : ((deleteChunkInternal st c0).1.chunks.map Prod.fst).Nodup := by
      rw [e5]
      exact aerase_keys_nodup _ _ hknd
    obtain ⟨f1, f2, f3, f4, f5, f6, f7, f8, f9, f10⟩ :=
      ih (deleteChunkInternal st c0).1 hpre' hndrest hknd1
    rw [hfold]
    refine ⟨f1.trans e1, f2.trans e2, f3.trans e3, f4.trans e4, ?_, ?_, f7, ?_, ?_, ?_⟩
    · intro cid hcid
      rcases List.mem_cons.mp hcid with rfl | hmem
      · by_cases hin : cid ∈ rest
        · exact f5 cid hin
        · rw [f6 cid hin, e5, alookup_aerase]
      · exact f5 _ hmem
    · intro x hx
      rw [List.mem_cons] at hx
      push_neg at hx
      rw [f6 x hx.2, e5, alookup_aerase_other _ _ _ hx.1]
    · have hlen1 : (deleteChunkInternal st c0).1.chunks.length + 1 = st.chunks.length := by
        rw [e5]
        exact length_aerase _ _ hknd hc0p
      rw [List.length_cons]
      omega
    · intro d hd
      rw [f9 d hd, e6 d hd]
    · intro x hx
      rw [List.mem_cons] at hx
      push_neg at hx
      rw [f10 x hx.2, e7, alookup_aerase_other _ _ _ hx.1]

/-- Effects of `_delete_document_internal` on a present document whose chunk
set is duplicate-free, with existing chunks pointing back at it. -/
theorem ddi_effect (st : RepoState) (did : Nat)
    (hdoc : (alookup st.documents did).isSome)
    (hchs : ∀ cid ∈ (alookup st.documentChunks did).getD [],
      (alookup st.chunks cid).isSome ∧ alookup st.chunkDocument cid = some did)
    (hchnd : ((alookup st.documentChunks did).getD []).Nodup)
    (hcknd : (st.chunks.map Prod.fst).Nodup) :
    (deleteDocumentInternal st did).2 = true ∧
    (deleteDocumentInternal st did).1.libraries = st.libraries ∧
    (deleteDocumentInternal st did).1.documents = aerase st.documents did ∧
    (∀ cid ∈ (alookup st.documentChunks did).getD [],
      alookup (deleteDocumentInternal st did).1.chunks cid = none) ∧
    (∀ x, x ∉ (alookup st.documentChunks did).getD [] →
      alookup (deleteDocumentInternal st did).1.chunks x = alookup st.chunks x) ∧
    ((deleteDocumentInternal st did).1.chunks.map Prod.fst).Nodup ∧
    (deleteDocumentInternal st did).1.chunks.length
      + ((alookup st.documentChunks did).getD []).length = st.chunks.length ∧
    (∀ d, d ≠ did → alookup (deleteDocumentInternal st did).1.documentChunks d
      = alookup st.documentChunks d) ∧
    (∀ x, x ∉ (alookup st.documentChunks did).getD [] →
      alookup (deleteDocumentInternal st did).1.chunkDocument x
      = alookup st.chunkDocument x) := by
  obtain ⟨f1, f2, f3, f4, f5, f6, f7, f8, f9, f10⟩ :=
    deleteChunksFold_effect did ((alookup st.documentChunks did).getD []) st hchs hchnd hcknd
  have hguard : ¬ (alookup st.documents did).isSome = false := by simp [hdoc]
  set stF := deleteChunksFold st ((alookup st.documentChunks did).getD []) with hstF
  have hmatch : ∃ st2 : RepoState,
      (match alookup stF.documentLibrary did with
       | some libraryId =>
         if (alookup stF.libraryDocuments libraryId).isSome then
           { stF with libraryDocuments :=
               (amodify stF.libraryDocuments libraryId
                 (fun s => s.filter (fun d => d != did))) }
         else stF
       | none => stF) = st2 ∧
      st2.libraries = stF.libraries ∧
      st2.documents = stF.documents ∧
      st2.chunks = stF.chunks ∧
      st2.documentChunks = stF.documentChunks ∧
      st2.chunkDocument = stF.chunkDocument ∧
      st2.documentLibrary = stF.documentLibrary := by
    cases alookup stF.documentLibrary did with
    | none => exact ⟨stF, rfl, rfl, rfl, rfl, rfl, rfl, rfl⟩
    | some lid =>
      by_cases hset : (alookup stF.libraryDocuments lid).isSome
      · exact ⟨{ stF with libraryDocuments :=
            (amodify stF.libraryDocuments lid
              (fun s => s.filter (fun d => d != did))) },
          by dsimp only; rw [if_pos hset], rfl, rfl, rfl, rfl, rfl, rfl⟩
      · exact ⟨stF, by dsimp only; rw [if_neg hset], rfl, rfl, rfl, rfl, rfl, rfl⟩
  obtain ⟨st2, hm, p1, p2, p3, p4, p5, p6⟩ := hmatch
  simp only [deleteDocumentInternal, if_neg hguard, hm]
  refine ⟨trivial, p1.trans f1, ?_, ?_, ?_, ?_, ?_, ?_, ?_⟩
  · rw [p2, f2]
  · intro cid hcid
    rw [p3]
    exact f5 cid hcid
  · intro x hx
    rw [p3]
    exact f6 x hx
  · rw [p3]
    exact f7
  · rw [p3]
    exact f8
  · intro d hd
    rw [alookup_aerase_other _ _ _ hd, p4]
    exact f9 d hd
  · intro x hx
    rw [p5]
    exact f10 x hx

/-- Effects of the document-deletion loop of `delete_library`, relative to
the pre-state `st` whose relation sets describe the documents to delete. -/
theorem deleteDocumentsFold_effect (st : RepoState) :
    ∀ (dl : List Nat) (stI : RepoState),
    (∀ d ∈ dl, (alookup stI.documents d).isSome) →
    (∀ d ∈ dl, alookup stI.documentChunks d = alookup st.documentChunks d) →
    (∀ d ∈ dl, ∀ cid ∈ (alookup st.documentChunks d).getD [],
      (alookup stI.chunks cid).isSome ∧ alookup stI.chunkDocument cid = some d) →
    dl.Nodup →
    (∀ d ∈ dl, ((alookup st.documentChunks d).getD []).Nodup) →
    (stI.chunks.map Prod.fst).Nodup →
    (stI.documents.map Prod.fst).Nodup →
    (deleteDocumentsFold stI dl).libraries = stI.libraries ∧
    (∀ d ∈ dl, alookup (deleteDocumentsFold stI dl).documents d = none) ∧
    (∀ x, x ∉ dl →
      alookup (deleteDocumentsFold stI dl).documents x = alookup stI.documents x) ∧
    ((deleteDocumentsFold stI dl).documents.map Prod.fst).Nodup ∧
    (deleteDocumentsFold stI dl).documents.length + dl.length = stI.documents.length ∧
    (∀ d ∈ dl, ∀ cid ∈ (alookup st.documentChunks d).getD [],
      alookup (deleteDocumentsFold stI dl).chunks cid = none) ∧
    (∀ x, (∀ d ∈ dl, x ∉ (alookup st.documentChunks d).getD []) →
      alookup (deleteDocumentsFold stI dl).chunks x = alookup stI.chunks x) ∧
    ((deleteDocumentsFold stI dl).chunks.map Prod.fst).Nodup ∧
    (deleteDocumentsFold stI dl).chunks.length
      + (dl.map (fun d => ((alookup st.documentChunks d).getD []).length)).sum
      = stI.chunks.length := by
  intro dl
  induction dl with
  | nil =>
    intro stI _ _ _ _ _ hck hdk
    exact ⟨rfl, by simp, fun x _ => rfl, hdk, by simp [deleteDocumentsFold],
      by simp, fun x _ => rfl, hck, by simp [deleteDocumentsFold]⟩
  | cons d0 rest ih =>
    intro stI h1 h2 h3 h4 h5 hck hdk
    have hfold : deleteDocumentsFold stI (d0 :: rest)
        = deleteDocumentsFold (deleteDocumentInternal stI d0).1 rest := rfl
    have hd0doc : (alookup stI.documents d0).isSome := h1 d0 (List.mem_cons_self _ _)
    have hd0set : alookup stI.documentChunks d0 = alookup st.documentChunks d0 :=
      h2 d0 (List.mem_cons_self _ _)
    have hd0chs : ∀ cid ∈ (alookup stI.documentChunks d0).getD [],
        (alookup stI.chunks cid).isSome ∧ alookup stI.chunkDocument cid = some d0 := by
      rw [hd0set]
      exact h3 d0 (List.mem_cons_self _ _)
    have hd0nd : ((alookup stI.documentChunks d0).getD []).Nodup := by
      rw [hd0set]
      exact h5 d0 (List.mem_cons_self _ _)
    obtain ⟨g0, g1, g2, g3, g4, g5, g6, g7, g8⟩ :=
      ddi_effect stI d0 hd0doc hd0chs hd0nd hck
    rw [hd0set] at g3 g4 g6 g8
    have hd0notin : d0 ∉ rest := (List.nodup_cons.mp h4).1
    have hndrest : rest.Nodup := (List.nodup_cons.mp h4).2
    -- the sets of distinct documents are disjoint, through the back-references
    have hdisj : ∀ d ∈ rest, ∀ x ∈ (alookup st.documentChunks d).getD [],
        x ∉ (alookup st.documentChunks d0).getD [] := by
      intro d hd x hx hx0
      have hxd := (h3 d (List.mem_cons_of_mem _ hd) x hx).2
      have hxd0 := (h3 d0 (List.mem_cons_self _ _) x hx0).2
      rw [hxd] at hxd0
      cases hxd0
      exact hd0notin hd
    set stI1 := (deleteDocumentInternal stI d0).1 with hstI1
    have h1' : ∀ d ∈ rest, (alookup stI1.documents d).isSome := by
      intro d hd
      rw [g2, alookup_aerase_other _ _ _ (fun he => hd0notin (by rw [← he]; exact hd))]
      exact h1 d (List.mem_cons_of_mem _ hd)
    have h2' : ∀ d ∈ rest, alookup stI1.documentChunks d = alookup st.documentChunks d := by
      intro d hd
      rw [g7 d (fun he => hd0notin (by rw [← he]; exact hd))]
      exact h2 d (List.mem_cons_of_mem _ hd)
    have h3' : ∀ d ∈ rest, ∀ cid ∈ (alookup st.documentChunks d).getD [],
        (alookup stI1.chunks cid).isSome ∧ alookup stI1.chunkDocument cid = some d := by
      intro d hd cid hcid
      have hnot := hdisj d hd cid hcid
      obtain ⟨hq, hqd⟩ := h3 d (List.mem_cons_of_mem _ hd) cid hcid
      rw [g4 cid hnot, g8 cid hnot]
      exact ⟨hq, hqd⟩
    have h5' : ∀ d ∈ rest, ((alookup st.documentChunks d).getD []).Nodup :=
      fun d hd => h5 d (List.mem_cons_of_mem _ hd)
    have hck1 : (stI1.chunks.map Prod.fst).Nodup := g5
    have hdk1 : (stI1.documents.map Prod.fst).Nodup := by
      rw [g2]
      exact aerase_keys_nodup _ _ hdk
    obtain ⟨k0, k1, k2, k3, k4, k5, k6, k7, k8⟩ :=
      ih stI1 h1' h2' h3' hndrest h5' hck1 hdk1
    rw [hfold]
    refine ⟨k0.trans g1, ?_, ?_, k3, ?_, ?_, ?_, k7, ?_⟩
    · intro d hd
      rcases List.mem_cons.mp hd with rfl | hmem
      · rw [k2 d hd0notin, g2, alookup_aerase]
      · exact k1 d hmem
    · intro x hx
      rw [List.mem_cons] at hx
      push_neg at hx
      rw [k2 x hx.2, g2, alookup_aerase_other _ _ _ hx.1]
    · have : stI1.documents.length + 1 = stI.documents.length := by
        rw [g2]
        exact length_aerase _ _ hdk hd0doc
      rw [List.length_cons]
      omega
    · intro d hd cid hcid
      rcases List.mem_cons.mp hd with rfl | hmem
      · have hnotrest : ∀ d' ∈ rest, cid ∉ (alookup st.documentChunks d').getD [] :=
          fun d' hd' hc' => hdisj d' hd' cid hc' hcid
        rw [k6 cid hnotrest]
        exact g3 cid hcid
      · exact k5 d hmem cid hcid
    · intro x hx
      have hxrest : ∀ d ∈ rest, x ∉ (alookup st.documentChunks d).getD [] :=
        fun d hd => hx d (List.mem_cons_of_mem _ hd)
      rw [k6 x hxrest]
      exact g4 x (hx d0 (List.mem_cons_self _ _))
    · rw [List.map_cons, List.sum_cons]
      omega

theorem alookup_eq_some_mem {α : Type} (l : List (Nat × α)) (key : Nat) (v : α)
    (h : alookup l key = some v) : (key, v) ∈ l := by
  induction l with
  | nil => cases h
  | cons kv t ih =>
    cases kv with
    | mk a b =>
      rw [alookup_cons] at h
      by_cases hk : a = key
      · rw [if_pos hk] at h
        subst hk
        injection h with h2
        subst h2
        exact List.mem_cons_self _ _
      · rw [if_neg hk] at h
        exact List.mem_cons_of_mem _ (ih h)

/-- C4 (confirmed): on a referentially consistent catalog, `delete_library`
returns true exactly when the library exists; after a successful delete the
library, its documents and their chunks all read back as absent, the stats
counters drop by exactly the deleted counts, and deleting again returns
false leaving the state unchanged. -/
theorem claim4_delete_library (st : RepoState) (L : Nat) (hwf : RepoWf st) :
    ((deleteLibrary st L).2 = true ↔ (alookup st.libraries L).isSome = true) ∧
    ((alookup st.libraries L).isSome →
      getLibrary (deleteLibrary st L).1 L = none ∧
      (∀ did ∈ (alookup st.libraryDocuments L).getD [],
        getDocument (deleteLibrary st L).1 did = none) ∧
      (∀ did ∈ (alookup st.libraryDocuments L).getD [],
        ∀ cid ∈ (alookup st.documentChunks did).getD [],
          getChunk (deleteLibrary st L).1 cid = none) ∧
      (getStats (deleteLibrary st L).1).librariesCount + 1
        = (getStats st).librariesCount ∧
      (getStats (deleteLibrary st L).1).documentsCount
        + ((alookup st.libraryDocuments L).getD []).length
        = (getStats st).documentsCount ∧
      (getStats (deleteLibrary st L).1).chunksCount
        + (((alookup st.libraryDocuments L).getD []).map
            (fun did => ((alookup st.documentChunks did).getD []).length)).sum
        = (getStats st).chunksCount ∧
      deleteLibrary (deleteLibrary st L).1 L = ((deleteLibrary st L).1, false)) := by
  by_cases hp : (alookup st.libraries L).isSome
  · have hguard : ¬ (alookup st.libraries L).isSome = false := by simp [hp]
    obtain ⟨lv, hlv⟩ := Option.isSome_iff_exists.mp hp
    have hmemLib : (L, lv) ∈ st.libraries := alookup_eq_some_mem _ _ _ hlv
    have hds : (alookup st.libraryDocuments L).isSome := hwf.libHasDocSet (L, lv) hmemLib
    obtain ⟨docs, hdocs⟩ := Option.isSome_iff_exists.mp hds
    have hdl : (alookup st.libraryDocuments L).getD [] = docs := by rw [hdocs]; rfl
    obtain ⟨hdocsnd, hdocsmem⟩ :=
      hwf.docsOfLib (L, docs) (alookup_eq_some_mem _ _ _ hdocs)
    have hH1 : ∀ d ∈ docs, (alookup st.documents d).isSome :=
      fun d hd => (hdocsmem d hd).1
    have hH3 : ∀ d ∈ docs, ∀ cid ∈ (alookup st.documentChunks d).getD [],
        (alookup st.chunks cid).isSome ∧ alookup st.chunkDocument cid = some d := by
      intro d hd cid hcid
      cases hset : alookup st.documentChunks d with
      | none => simp [hset] at hcid
      | some chs =>
        rw [hset] at hcid
        exact (hwf.chunksOfDoc (d, chs) (alookup_eq_some_mem _ _ _ hset)).2 cid hcid
    have hH5 : ∀ d ∈ docs, ((alookup st.documentChunks d).getD []).Nodup := by
      intro d hd
      cases hset : alookup st.documentChunks d with
      | none => simp [hset]
      | some chs =>
        exact (hwf.chunksOfDoc (d, chs) (alookup_eq_some_mem _ _ _ hset)).1
    obtain ⟨k0, k1, k2, k3, k4, k5, k6, k7, k8⟩ :=
      deleteDocumentsFold_effect st docs st hH1 (fun d _ => rfl) hH3 hdocsnd hH5
        hwf.chunkKeys hwf.docKeys
    have hrun : deleteLibrary st L =
        ({ deleteDocumentsFold st docs with
            libraries := aerase (deleteDocumentsFold st docs).libraries L,
            libraryDocuments :=
              aerase (deleteDocumentsFold st docs).libraryDocuments L },
         true) := by
      simp only [deleteLibrary, if_neg hguard, hdl]
    constructor
    · rw [hrun]
      simp [hp]
    · intro _
      refine ⟨?_, ?_, ?_, ?_, ?_, ?_, ?_⟩
      · rw [hrun]
        simp only [getLibrary, alookup_aerase]
      · intro did hd
        rw [hdl] at hd
        rw [hrun]
        simp only [getDocument]
        rw [k1 did hd]
      · intro did hd cid hcid
        rw [hdl] at hd
        rw [hrun]
        simp only [getChunk]
        exact k5 did hd cid hcid
      · rw [hrun]
        simp only [getStats]
        rw [show (aerase (deleteDocumentsFold st docs).libraries L).length + 1
            = (deleteDocumentsFold st docs).libraries.length from
          length_aerase _ _ (by rw [k0]; exact hwf.libKeys) (by rw [k0]; exact hp), k0]
      · rw [hrun, hdl]
        simp only [getStats]
        exact k4
      · rw [hrun, hdl]
        simp only [getStats]
        exact k8
      · rw [hrun]
        have habs : (alookup (aerase (deleteDocumentsFold st docs).libraries L) L).isSome
            = false := by
          rw [alookup_aerase]
          rfl
        rw [deleteLibrary, if_pos habs]
  · rw [Bool.not_eq_true] at hp
    constructor
    · rw [deleteLibrary, if_pos hp]
      simp [hp]
    · intro hcontra
      rw [hp] at hcontra
      cases hcontra

/-- Witness for C4 on the concrete catalog `exRepo` (scenario 3 of the
spec: delete the only library, everything reads back absent). -/
theorem claim4_witness :
    (deleteLibrary exRepo 1).2 = true ∧
    getLibrary (deleteLibrary exRepo 1).1 1 = none ∧
    getDocument (deleteLibrary exRepo 1).1 2 = none ∧
    getChunk (deleteLibrary exRepo 1).1 3 = none ∧
    getChunk (deleteLibrary exRepo 1).1 4 = none ∧
    (getStats (deleteLibrary exRepo 1).1).librariesCount + 1
      = (getStats exRepo).librariesCount ∧
    deleteLibrary (deleteLibrary exRepo 1).1 1 = ((deleteLibrary exRepo 1).1, false) := by
  have hwf : RepoWf exRepo := ⟨by decide, by decide, by decide, by decide, by decide,
    by decide, by decide⟩
  have h := claim4_delete_library exRepo 1 hwf
  have hp : (alookup exRepo.libraries 1).isSome := by decide
  obtain ⟨hl, hd, hc, hs1, hs2, hs3, h2nd⟩ := h.2 hp
  refine ⟨h.1.mpr hp, hl, ?_, ?_, ?_, hs1, h2nd⟩
  · exact hd 2 (by decide)
  · exact hc 2 (by decide) 3 (by decide)
  · exact hc 2 (by decide) 4 (by decide)

/-! ### C2: KD-tree versus linear search -/

theorem sqrt_eval {a b : ℝ} (hb : 0 ≤ b) (h : a = b ^ 2) : Real.sqrt a = b := by
  rw [h, Real.sqrt_sq hb]

theorem buildTree_nil (dims depth : Nat) : buildTree dims [] depth = .leaf := by
  rw [buildTree]
  rfl

theorem buildTree_single (dims depth : Nat) (c : Chunk) :
    buildTree dims [c] depth = .node .leaf c (depth % dims) .leaf := by
  rw [buildTree]
  rw [dif_neg (by simp)]
  have hs : List.insertionSort (axLe (depth % dims)) [c] = [c] := by
    simp [List.insertionSort, List.orderedInsert]
  simp only [hs, List.length_singleton]
  norm_num [buildTree_nil]

theorem cex_build :
    buildTree 2 [cex1, cex2, cex3] 0 =
      .node (.node .leaf cex1 1 .leaf) cex2 0 (.node .leaf cex3 1 .leaf) := by
  have h23 : axLe 0 cex2 cex3 := by norm_num [axLe, axKey, cex2, cex3]
  have h12 : axLe 0 cex1 cex2 := by norm_num [axLe, axKey, cex1, cex2]
  have hs : List.insertionSort (axLe 0) [cex1, cex2, cex3] = [cex1, cex2, cex3] := by
    simp only [List.insertionSort, List.orderedInsert]
    rw [if_pos h23]
    simp only [List.orderedInsert]
    rw [if_pos h12]
  rw [buildTree]
  rw [dif_neg (by simp)]
  simp only [Nat.zero_mod, hs, List.length_cons, List.length_nil]
  norm_num
  exact ⟨buildTree_single 2 1 cex1, buildTree_single 2 1 cex3⟩

theorem cex_norm_q : Real.sqrt (sumSq [(3 : ℝ), 4]) = 5 :=
  sqrt_eval (by norm_num) (by norm_num [sumSq])

theorem cex_norm1 : Real.sqrt (sumSq cex1.embedding) = 5 :=
  sqrt_eval (by norm_num) (by norm_num [sumSq, cex1])

theorem cex_norm2 : Real.sqrt (sumSq cex2.embedding) = 13 :=
  sqrt_eval (by norm_num) (by norm_num [sumSq, cex2])

theorem cex_norm3 : Real.sqrt (sumSq cex3.embedding) = 50 :=
  sqrt_eval (by norm_num) (by norm_num [sumSq, cex3])

theorem cex_calc1 : calcSim [(3 : ℝ), 4] cex1.embedding "cosine" = .ok (1/25, 24/25) := by
  rw [calcSim_cosine _ _ (by rw [cex_norm_q]; norm_num) (by rw [cex_norm1]; norm_num)
    (by simp [cex1])]
  rw [cex_norm_q, cex_norm1]
  norm_num [dotp, cex1]

theorem cex_calc2 : calcSim [(3 : ℝ), 4] cex2.embedding "cosine" = .ok (9/65, 56/65) := by
  rw [calcSim_cosine _ _ (by rw [cex_norm_q]; norm_num) (by rw [cex_norm2]; norm_num)
    (by simp [cex2])]
  rw [cex_norm_q, cex_norm2]
  norm_num [dotp, cex2]

theorem cex_calc3 : calcSim [(3 : ℝ), 4] cex3.embedding "cosine" = .ok (0, 1) := by
  rw [calcSim_cosine _ _ (by rw [cex_norm_q]; norm_num) (by rw [cex_norm3]; norm_num)
    (by simp [cex3])]
  rw [cex_norm_q, cex_norm3]
  norm_num [dotp, cex3]

theorem cex_kd_build :
    kdIndexRun {} [cex1, cex2, cex3] =
      (⟨"cosine", [cex1, cex2, cex3], true,
        .node (.node .leaf cex1 1 .leaf) cex2 0 (.node .leaf cex3 1 .leaf), 2⟩, none) := by
  simp only [kdIndexRun]
  rw [if_pos (by decide), if_neg (by decide)]
  rw [show cex1.embedding.length = 2 from rfl, cex_build]

theorem cex_visit2 : visitChunk [(3 : ℝ), 4] 1 "cosine" cex2 []
    = [⟨cex2, 9/65, 56/65⟩] := by
  rw [visitChunk, cex_calc2]
  dsimp only
  rw [if_pos (by norm_num)]
  simp [List.insertionSort, List.orderedInsert]

theorem cex_worst2 : worstDistance [(⟨cex2, 9/65, 56/65⟩ : SearchHit)] = 9/65 := by
  simp [worstDistance]

theorem cex_worst1 : worstDistance [(⟨cex1, 1/25, 24/25⟩ : SearchHit)] = 1/25 := by
  simp [worstDistance]

theorem cex_visit1 : visitChunk [(3 : ℝ), 4] 1 "cosine" cex1 [⟨cex2, 9/65, 56/65⟩]
    = [⟨cex1, 1/25, 24/25⟩] := by
  rw [visitChunk, cex_calc1]
  dsimp only
  rw [if_neg (by norm_num), if_pos (by rw [cex_worst2]; norm_num)]
  simp [List.insertionSort, List.orderedInsert]

theorem cex_searchL : searchNode [(3 : ℝ), 4] 1 "cosine" (.node .leaf cex1 1 .leaf)
    [⟨cex2, 9/65, 56/65⟩] = [⟨cex1, 1/25, 24/25⟩] := by
  rw [searchNode]
  dsimp only
  rw [cex_visit1]
  rw [if_neg (by norm_num [cex1])]
  simp only [searchNode]
  split
  · rfl
  · rfl

theorem cex_search_root : searchNode [(3 : ℝ), 4] 1 "cosine"
    (.node (.node .leaf cex1 1 .leaf) cex2 0 (.node .leaf cex3 1 .leaf)) []
    = [⟨cex1, 1/25, 24/25⟩] := by
  rw [searchNode]
  dsimp only
  rw [cex_visit2]
  rw [if_pos (by norm_num [cex2])]
  rw [cex_searchL]
  rw [if_neg ?hcond]
  case hcond =>
    rw [cex_worst1]
    push_neg
    constructor
    · norm_num
    · norm_num [cex2]

theorem cex_kd_search :
    kdSearch (kdIndexRun {} [cex1, cex2, cex3]).1 [(3 : ℝ), 4] 1 (some "cosine")
      = .ok [⟨cex1, 1/25, 24/25⟩] := by
  rw [cex_kd_build]
  rw [kdSearch]
  rw [if_neg (by simp [KDTree.isLeaf])]
  rw [if_neg (by simp)]
  rw [if_neg (by simp)]
  rw [if_neg (by simp)]
  simp only [Option.getD_some]
  rw [show min 1 ([cex1, cex2, cex3].length) = 1 from rfl]
  exact congrArg Except.ok cex_search_root

theorem cex_bf_search :
    bfSearch (bfIndex {} [cex1, cex2, cex3]) [(3 : ℝ), 4] 1 (some "cosine")
      = .ok [⟨cex3, 0, 1⟩] := by
  rw [bfSearch]
  rw [if_neg (by simp [bfIndex])]
  rw [if_neg (by simp)]
  rw [if_neg (by simp [bfIndex])]
  have hfm : List.filterMap (fun c =>
      match calcSim [(3 : ℝ), 4] c.embedding ((some "cosine").getD
          (bfIndex {} [cex1, cex2, cex3]).similarityMetric) with
      | .ok (d, sim) => some (⟨c, d, sim⟩ : SearchHit)
      | .error _ => none) (bfIndex {} [cex1, cex2, cex3]).indexedChunks
      = [⟨cex1, 1/25, 24/25⟩, ⟨cex2, 9/65, 56/65⟩, ⟨cex3, 0, 1⟩] := by
    simp only [bfIndex, Option.getD_some]
    simp only [List.filterMap_cons, List.filterMap_nil, cex_calc1, cex_calc2, cex_calc3]
  rw [hfm]
  have hsort : List.insertionSort hitLe
      [⟨cex1, 1/25, 24/25⟩, ⟨cex2, 9/65, 56/65⟩, ⟨cex3, 0, 1⟩]
      = [⟨cex3, 0, 1⟩, ⟨cex1, 1/25, 24/25⟩, ⟨cex2, 9/65, 56/65⟩] := by
    norm_num [List.insertionSort, List.orderedInsert, hitLe]
  rw [hsort]
  rfl

/-- C2 (corrected): the KD-tree prunes with the axis-coordinate gap compared
against the current worst **cosine** distance — quantities in different
units — so under the cosine metric it can discard the true nearest
neighbour. On chunks 1:(4,3), 2:(12,5), 3:(30,40) with query (3,4) and k=1,
all distances distinct, the KD-tree returns chunk 1 while the linear scan
returns chunk 3 (the exact match): the id multisets differ. -/
theorem claim2_counterexample :
    kdSearch (kdIndexRun {} [cex1, cex2, cex3]).1 [(3 : ℝ), 4] 1 (some "cosine")
      = .ok [⟨cex1, 1/25, 24/25⟩] ∧
    bfSearch (bfIndex {} [cex1, cex2, cex3]) [(3 : ℝ), 4] 1 (some "cosine")
      = .ok [⟨cex3, 0, 1⟩] ∧
    ([⟨cex1, 1/25, 24/25⟩] : List SearchHit).map (fun h => h.chunk.id) = [1] ∧
    ([⟨cex3, 0, 1⟩] : List SearchHit).map (fun h => h.chunk.id) = [3] ∧
    (↑[(1 : Nat)] : Multiset Nat) ≠ (↑[(3 : Nat)] : Multiset Nat) := by
  exact ⟨cex_kd_search, cex_bf_search, rfl, rfl, by decide⟩

/-! ### C2, amended: KD-tree/linear equivalence under the euclidean metric.

Helper stack: geometry of the axis gap, the k-smallest selection `sel`,
well-formedness of `buildTree`, and the bounded-best-list invariant. -/

theorem sqrt_sumSq_ne {v : List ℝ} (h : sumSq v ≠ 0) : Real.sqrt (sumSq v) ≠ 0 :=
  fun hc => h (le_antisymm (Real.sqrt_eq_zero'.mp hc) (sumSq_nonneg v))

theorem sumSq_getD_le (l : List ℝ) (a : Nat) (ha : a < l.length) :
    l.getD a 0 * l.getD a 0 ≤ sumSq l := by
  induction l generalizing a with
  | nil => simp at ha
  | cons x t ih =>
    cases a with
    | zero =>
      have h0 : 0 ≤ sumSq t := sumSq_nonneg t
      simp only [List.getD_cons_zero, sumSq, List.map_cons, List.sum_cons]
      simp only [sumSq] at h0
      nlinarith
    | succ a' =>
      have ha' : a' < t.length := by simpa using ha
      have hih := ih a' ha'
      simp only [List.getD_cons_succ, sumSq, List.map_cons, List.sum_cons]
      simp only [sumSq] at hih
      nlinarith [mul_self_nonneg x]

theorem subV_getD (q e : List ℝ) (a : Nat) (hq : a < q.length) (he : a < e.length) :
    (subV q e).getD a 0 = q.getD a 0 - e.getD a 0 := by
  induction q generalizing e a with
  | nil => simp at hq
  | cons x t ih =>
    cases e with
    | nil => simp at he
    | cons y s =>
      cases a with
      | zero => simp [subV]
      | succ a' =>
        simp only [subV, List.zipWith_cons_cons, List.getD_cons_succ]
        exact ih s a' (by simpa using hq) (by simpa using he)

theorem subV_length (q e : List ℝ) : (subV q e).length = min q.length e.length := by
  simp [subV]

/-- The axis-coordinate gap is a lower bound on the euclidean kernel distance. -/
theorem axis_gap_le_edist (q : List ℝ) (c : Chunk) (axis : Nat)
    (hlen : c.embedding.length = q.length) (haxis : axis < q.length) :
    |q.getD axis 0 - c.embedding.getD axis 0| ≤ edist q c := by
  have h1 : (subV q c.embedding).getD axis 0 * (subV q c.embedding).getD axis 0
      ≤ sumSq (subV q c.embedding) :=
    sumSq_getD_le _ axis (by rw [subV_length, hlen]; omega)
  rw [subV_getD q c.embedding axis haxis (by rw [hlen]; exact haxis)] at h1
  have h2 := Real.sqrt_le_sqrt h1
  rw [Real.sqrt_mul_self_eq_abs] at h2
  exact h2

theorem sorted_le_getLast : ∀ (l : List ℝ), l.Sorted (· ≤ ·) → ∀ (hne : l ≠ []),
    ∀ x ∈ l, x ≤ l.getLast hne := by
  intro l
  induction l with
  | nil => intro _ hne; exact absurd rfl hne
  | cons a t ih =>
    intro hs hne x hx
    cases t with
    | nil =>
      rw [List.mem_singleton] at hx
      subst hx
      rw [List.getLast_singleton]
    | cons b s =>
      rw [List.getLast_cons (by simp : b :: s ≠ [])]
      rw [List.mem_cons] at hx
      rcases hx with rfl | hx'
      · exact le_trans ((List.sorted_cons.mp hs).1 b (by simp))
          (ih (List.sorted_cons.mp hs).2 (by simp) b (by simp))
      · exact ih (List.sorted_cons.mp hs).2 (by simp) x hx'

theorem worstDistance_eq (best : List SearchHit) (hne : best ≠ []) :
    worstDistance best = (best.getLast hne).distance := by
  rw [worstDistance, List.getLast?_eq_getLast best hne]
  rfl

theorem map_dist_getLast (l : List SearchHit) (hne : l ≠ []) :
    (l.map SearchHit.distance).getLast (by simp [hne]) = (l.getLast hne).distance := by
  rw [List.getLast_map]

theorem dist_map_sorted {l : List SearchHit} (h : l.Sorted hitLe) :
    (l.map SearchHit.distance).Sorted (· ≤ ·) := by
  rw [List.Sorted, List.pairwise_map]
  exact h

theorem distMult_perm {l l' : List SearchHit} (h : l.Perm l') :
    distMult l = distMult l' :=
  Multiset.coe_eq_coe.mpr (h.map SearchHit.distance)

theorem distMult_append (l₁ l₂ : List SearchHit) :
    distMult (l₁ ++ l₂) = distMult l₁ + distMult l₂ := by
  simp [distMult]

theorem distMult_card (l : List SearchHit) :
    Multiset.card (distMult l) = l.length := by
  simp [distMult]

theorem sorted_take_real (l : List ℝ) (k : Nat) (h : l.Sorted (· ≤ ·)) :
    (l.take k).Sorted (· ≤ ·) :=
  List.Pairwise.sublist (List.take_sublist k l) h

theorem sort_coe_sorted (l : List ℝ) (hs : l.Sorted (· ≤ ·)) :
    (↑l : Multiset ℝ).sort (· ≤ ·) = l :=
  List.eq_of_perm_of_sorted (Multiset.coe_eq_coe.mp (Multiset.sort_eq _ _))
    (Multiset.sort_sorted _ _) hs

theorem sort_add_singleton (s : Multiset ℝ) (a : ℝ) :
    (s + {a}).sort (· ≤ ·) = List.orderedInsert (· ≤ ·) a (s.sort (· ≤ ·)) := by
  refine List.eq_of_perm_of_sorted ?_ (Multiset.sort_sorted _ _)
    (List.Sorted.orderedInsert a _ (Multiset.sort_sorted _ _))
  apply Multiset.coe_eq_coe.mp
  rw [Multiset.sort_eq]
  have hp : (List.orderedInsert (· ≤ ·) a (s.sort (· ≤ ·))).Perm
      (a :: s.sort (· ≤ ·)) := List.perm_orderedInsert _ _ _
  rw [Multiset.coe_eq_coe.mpr hp, ← Multiset.cons_coe, Multiset.sort_eq,
    ← Multiset.singleton_add, add_comm]

theorem sel_of_card_le (k : Nat) (s : Multiset ℝ) (h : Multiset.card s ≤ k) :
    sel k s = s := by
  rw [sel, List.take_of_length_le (by rw [Multiset.length_sort]; exact h),
    Multiset.sort_eq]

theorem card_sel (k : Nat) (s : Multiset ℝ) :
    Multiset.card (sel k s) = min k (Multiset.card s) := by
  rw [sel, Multiset.coe_card, List.length_take, Multiset.length_sort]

theorem take_orderedInsert (a : ℝ) :
    ∀ (l : List ℝ) (k : Nat),
      (List.orderedInsert (· ≤ ·) a (l.take k)).take k
        = (List.orderedInsert (· ≤ ·) a l).take k := by
  intro l
  induction l with
  | nil => intro k; rw [List.take_nil]
  | cons b t ih =>
    intro k
    cases k with
    | zero => rfl
    | succ j =>
      rw [List.take_succ_cons]
      by_cases hab : a ≤ b
      · simp only [List.orderedInsert]
        rw [if_pos hab, if_pos hab, List.take_succ_cons, List.take_succ_cons]
        congr 1
        cases j with
        | zero => rfl
        | succ i =>
          rw [List.take_succ_cons, List.take_succ_cons, List.take_take,
            inf_eq_left.mpr (by omega : i ≤ i + 1)]
      · simp only [List.orderedInsert]
        rw [if_neg hab, if_neg hab, List.take_succ_cons, List.take_succ_cons, ih j]

theorem sel_absorb_one (k : Nat) (s : Multiset ℝ) (a : ℝ) :
    sel k (sel k s + {a}) = sel k (s + {a}) := by
  have h1 : (sel k s + {a}).sort (· ≤ ·)
      = List.orderedInsert (· ≤ ·) a ((s.sort (· ≤ ·)).take k) := by
    rw [sel, sort_add_singleton,
      sort_coe_sorted _ (sorted_take_real _ _ (Multiset.sort_sorted _ _))]
  rw [sel, h1, take_orderedInsert, sel, sort_add_singleton]

theorem sel_absorb (k : Nat) (t : Multiset ℝ) :
    ∀ s : Multiset ℝ, sel k (sel k s + t) = sel k (s + t) := by
  refine Multiset.induction_on t (fun s => ?_) (fun a t' ih s => ?_)
  · rw [add_zero, add_zero, sel_of_card_le k (sel k s) (by rw [card_sel]; omega)]
  · have h1 : ∀ u : Multiset ℝ, u + (a ::ₘ t') = (u + {a}) + t' := fun u => by
      rw [← Multiset.singleton_add, ← add_assoc]
    rw [h1, h1]
    calc sel k ((sel k s + {a}) + t')
        = sel k (sel k (sel k s + {a}) + t') := (ih _).symm
      _ = sel k (sel k (s + {a}) + t') := by rw [sel_absorb_one]
      _ = sel k ((s + {a}) + t') := ih _

theorem sel_prune (k : Nat) (s t : Multiset ℝ) (hcard : Multiset.card s = k)
    (hle : ∀ x ∈ t, ∀ y ∈ s, y ≤ x) : sel k (s + t) = s := by
  have hsort : (s + t).sort (· ≤ ·) = s.sort (· ≤ ·) ++ t.sort (· ≤ ·) := by
    refine List.eq_of_perm_of_sorted ?_ (Multiset.sort_sorted _ _) ?_
    · apply Multiset.coe_eq_coe.mp
      rw [Multiset.sort_eq, ← Multiset.coe_add, Multiset.sort_eq, Multiset.sort_eq]
    · rw [List.Sorted, List.pairwise_append]
      exact ⟨Multiset.sort_sorted _ _, Multiset.sort_sorted _ _,
        fun x hx y hy => hle y ((Multiset.mem_sort _).mp hy) x
          ((Multiset.mem_sort _).mp hx)⟩
  rw [sel, hsort, List.take_left' (by rw [Multiset.length_sort]; exact hcard),
    Multiset.sort_eq]

theorem orderedInsert_take_dropLast :
    ∀ (l : List ℝ), l.Sorted (· ≤ ·) → ∀ (hne : l ≠ []) (a : ℝ),
      a < l.getLast hne →
      (List.orderedInsert (· ≤ ·) a l).take l.length
        = List.orderedInsert (· ≤ ·) a l.dropLast := by
  intro l
  induction l with
  | nil => intro _ hne; exact absurd rfl hne
  | cons b t ih =>
    intro hs hne a ha
    cases t with
    | nil =>
      have hab : a ≤ b := le_of_lt (by rw [List.getLast_singleton] at ha; exact ha)
      simp only [List.orderedInsert, if_pos hab]
      rfl
    | cons c s =>
      have hlast : a < (c :: s).getLast (by simp) := by
        rw [List.getLast_cons (by simp : c :: s ≠ [])] at ha
        exact ha
      by_cases hab : a ≤ b
      · have hL : List.orderedInsert (· ≤ ·) a (b :: c :: s)
            = a :: b :: c :: s := by
          rw [List.orderedInsert, if_pos hab]
        have hR : List.orderedInsert (· ≤ ·) a (b :: (c :: s).dropLast)
            = a :: b :: (c :: s).dropLast := by
          rw [List.orderedInsert, if_pos hab]
        rw [List.dropLast_cons₂, hL, hR, List.length_cons, List.take_succ_cons]
        congr 1
        rw [show (c :: s).length = s.length + 1 from rfl, List.take_succ_cons]
        congr 1
        rw [List.dropLast_eq_take]
        congr 1
      · have hL : List.orderedInsert (· ≤ ·) a (b :: c :: s)
            = b :: List.orderedInsert (· ≤ ·) a (c :: s) := by
          rw [List.orderedInsert, if_neg hab]
        have hR : List.orderedInsert (· ≤ ·) a (b :: (c :: s).dropLast)
            = b :: List.orderedInsert (· ≤ ·) a ((c :: s).dropLast) := by
          rw [List.orderedInsert, if_neg hab]
        rw [List.dropLast_cons₂, hL, hR, List.length_cons, List.take_succ_cons,
          ih (List.sorted_cons.mp hs).2 (by simp) a hlast]

/-- Inserting a strictly better candidate into a full bounded best-list of
size `k` realises the `k`-smallest selection. -/
theorem sel_insert_full (k : Nat) (ds : List ℝ) (hs : ds.Sorted (· ≤ ·))
    (hne : ds ≠ []) (hlen : ds.length = k) (a : ℝ) (ha : a < ds.getLast hne) :
    sel k (↑ds + {a}) = ↑(List.orderedInsert (· ≤ ·) a ds.dropLast) := by
  rw [sel, sort_add_singleton, sort_coe_sorted ds hs, ← hlen,
    orderedInsert_take_dropLast ds hs hne a ha]

/-- Skipping a candidate no better than the worst of a full best-list
realises the `k`-smallest selection. -/
theorem sel_insert_skip (k : Nat) (ds : List ℝ) (hs : ds.Sorted (· ≤ ·))
    (hne : ds ≠ []) (hlen : ds.length = k) (a : ℝ) (ha : ds.getLast hne ≤ a) :
    sel k (↑ds + {a}) = ↑ds := by
  refine sel_prune k (↑ds) {a} (by rw [Multiset.coe_card]; exact hlen) ?_
  intro x hx y hy
  rw [Multiset.mem_singleton] at hx
  subst hx
  exact le_trans (sorted_le_getLast ds hs hne y (by simpa using hy)) ha

theorem sorted_take_le_pivot (axis : Nat) (srt : List Chunk)
    (hsrt : srt.Sorted (axLe axis)) (m : Nat) (hm : m < srt.length)
    (x : Chunk) (hx : x ∈ srt.take m) :
    axLe axis x (srt.getD m default) := by
  rw [List.mem_iff_getElem] at hx
  obtain ⟨i, hi, hgt⟩ := hx
  have hil : i < m := by
    have h2 := hi
    rw [List.length_take] at h2
    omega
  have hisrt : i < srt.length := by
    have h2 := hi
    rw [List.length_take] at h2
    omega
  rw [List.getElem_take] at hgt
  rw [List.getD_eq_getElem srt default hm, ← hgt]
  rw [List.Sorted, List.pairwise_iff_getElem] at hsrt
  exact hsrt i m hisrt hm hil

theorem sorted_pivot_le_drop (axis : Nat) (srt : List Chunk)
    (hsrt : srt.Sorted (axLe axis)) (m : Nat) (hm : m < srt.length)
    (x : Chunk) (hx : x ∈ srt.drop (m + 1)) :
    axLe axis (srt.getD m default) x := by
  rw [List.mem_iff_getElem] at hx
  obtain ⟨i, hi, hgt⟩ := hx
  have hisrt : m + 1 + i < srt.length := by
    have h2 := hi
    rw [List.length_drop] at h2
    omega
  rw [List.getElem_drop] at hgt
  rw [List.getD_eq_getElem srt default hm, ← hgt]
  rw [List.Sorted, List.pairwise_iff_getElem] at hsrt
  exact hsrt m (m + 1 + i) hm hisrt (by omega)

theorem buildTree_eq_node (dims : Nat) (chunks : List Chunk) (depth : Nat)
    (h : chunks.length ≠ 0) :
    buildTree dims chunks depth =
      .node (buildTree dims ((chunks.insertionSort (axLe (depth % dims))).take
          ((chunks.insertionSort (axLe (depth % dims))).length / 2)) (depth + 1))
        ((chunks.insertionSort (axLe (depth % dims))).getD
          ((chunks.insertionSort (axLe (depth % dims))).length / 2) default)
        (depth % dims)
        (buildTree dims ((chunks.insertionSort (axLe (depth % dims))).drop
          ((chunks.insertionSort (axLe (depth % dims))).length / 2 + 1))
          (depth + 1)) := by
  rw [buildTree, dif_neg h]

theorem take_getD_drop (srt : List Chunk) (m : Nat) (hm : m < srt.length) :
    srt.take m ++ srt.getD m default :: srt.drop (m + 1) = srt := by
  rw [List.getD_eq_getElem srt default hm, ← List.drop_eq_getElem_cons hm,
    List.take_append_drop]

theorem buildTree_chunks_perm (dims : Nat) :
    ∀ (n : Nat) (chunks : List Chunk), chunks.length ≤ n → ∀ depth,
      (buildTree dims chunks depth).chunks.Perm chunks := by
  intro n
  induction n with
  | zero =>
    intro chunks hle depth
    have h0 : chunks = [] := List.length_eq_zero.mp (Nat.le_zero.mp hle)
    subst h0
    rw [buildTree_nil]
    exact List.Perm.refl _
  | succ nn ih =>
    intro chunks hle depth
    by_cases h : chunks.length = 0
    · have h0 : chunks = [] := List.length_eq_zero.mp h
      subst h0
      rw [buildTree_nil]
      exact List.Perm.refl _
    · rw [buildTree_eq_node dims chunks depth h, KDTree.chunks]
      set srt := chunks.insertionSort (axLe (depth % dims)) with hsrtdef
      have hlen : srt.length = chunks.length := List.length_insertionSort _ _
      have hm : srt.length / 2 < srt.length := Nat.div_lt_self (by omega) (by omega)
      have hl := ih (srt.take (srt.length / 2))
        (by rw [List.length_take]; omega) (depth + 1)
      have hr := ih (srt.drop (srt.length / 2 + 1))
        (by rw [List.length_drop]; omega) (depth + 1)
      have hcomb := hl.append (hr.cons (srt.getD (srt.length / 2) default))
      rw [take_getD_drop srt _ hm] at hcomb
      exact hcomb.trans (List.perm_insertionSort _ _)

theorem buildTree_wf (d : Nat) (hd : 0 < d) :
    ∀ (n : Nat) (chunks : List Chunk), chunks.length ≤ n → ∀ depth,
      kdWF d (buildTree d chunks depth) := by
  intro n
  induction n with
  | zero =>
    intro chunks hle depth
    have h0 : chunks = [] := List.length_eq_zero.mp (Nat.le_zero.mp hle)
    subst h0
    rw [buildTree_nil]
    simp only [kdWF]
  | succ nn ih =>
    intro chunks hle depth
    by_cases h : chunks.length = 0
    · have h0 : chunks = [] := List.length_eq_zero.mp h
      subst h0
      rw [buildTree_nil]
      simp only [kdWF]
    · rw [buildTree_eq_node d chunks depth h]
      set srt := chunks.insertionSort (axLe (depth % d)) with hsrtdef
      have hlen : srt.length = chunks.length := List.length_insertionSort _ _
      have hm : srt.length / 2 < srt.length := Nat.div_lt_self (by omega) (by omega)
      have hsorted : srt.Sorted (axLe (depth % d)) := List.sorted_insertionSort _ _
      rw [kdWF]
      refine ⟨Nat.mod_lt depth hd, ?_, ?_, ?_, ?_⟩
      · intro x hx
        have hxt : x ∈ srt.take (srt.length / 2) :=
          ((buildTree_chunks_perm d (srt.take (srt.length / 2)).length
            (srt.take (srt.length / 2)) le_rfl (depth + 1)).mem_iff).mp hx
        exact sorted_take_le_pivot (depth % d) srt hsorted _ hm x hxt
      · intro x hx
        have hxt : x ∈ srt.drop (srt.length / 2 + 1) :=
          ((buildTree_chunks_perm d (srt.drop (srt.length / 2 + 1)).length
            (srt.drop (srt.length / 2 + 1)) le_rfl (depth + 1)).mem_iff).mp hx
        exact sorted_pivot_le_drop (depth % d) srt hsorted _ hm x hxt
      · exact ih (srt.take (srt.length / 2)) (by rw [List.length_take]; omega)
          (depth + 1)
      · exact ih (srt.drop (srt.length / 2 + 1)) (by rw [List.length_drop]; omega)
          (depth + 1)

theorem buildTree_ne_leaf (dims : Nat) (chunks : List Chunk) (depth : Nat)
    (h : chunks.length ≠ 0) : (buildTree dims chunks depth).isLeaf = false := by
  rw [buildTree_eq_node dims chunks depth h, KDTree.isLeaf]

theorem calcSim_edist (q : List ℝ) (c : Chunk) (hq : sumSq q ≠ 0)
    (hc : sumSq c.embedding ≠ 0) (hlen : q.length = c.embedding.length) :
    calcSim q c.embedding "euclidean" = .ok (edist q c, 1 / (1 + edist q c)) :=
  calcSim_euclidean q c.embedding (sqrt_sumSq_ne hq) (sqrt_sumSq_ne hc) hlen

theorem mem_distMult_le_worst (b : List SearchHit) (hs : b.Sorted hitLe)
    (hne : b ≠ []) (y : ℝ) (hy : y ∈ distMult b) : y ≤ worstDistance b := by
  rw [distMult, Multiset.mem_coe] at hy
  have h1 := sorted_le_getLast (b.map SearchHit.distance) (dist_map_sorted hs)
    (by simp [hne]) y hy
  rw [map_dist_getLast b hne, ← worstDistance_eq b hne] at h1
  exact h1

theorem gap_le_edist_far (q : List ℝ) (c c' : Chunk) (axis : Nat)
    (hlen : q.length = c'.embedding.length) (haxis : axis < q.length)
    (hside : axKey axis c ≤ axKey axis c')
    (hdiff : q.getD axis 0 - c.embedding.getD axis 0 ≤ 0) :
    |q.getD axis 0 - c.embedding.getD axis 0| ≤ edist q c' := by
  have h1 := axis_gap_le_edist q c' axis hlen.symm haxis
  have h3 := hside
  simp only [axKey] at h3
  have h2 : |q.getD axis 0 - c.embedding.getD axis 0|
      ≤ |q.getD axis 0 - c'.embedding.getD axis 0| := by
    rw [abs_of_nonpos hdiff]
    calc -(q.getD axis 0 - c.embedding.getD axis 0)
        ≤ c'.embedding.getD axis 0 - q.getD axis 0 := by linarith
      _ ≤ |c'.embedding.getD axis 0 - q.getD axis 0| := le_abs_self _
      _ = |q.getD axis 0 - c'.embedding.getD axis 0| := abs_sub_comm _ _
  exact le_trans h2 h1

theorem gap_le_edist_far_left (q : List ℝ) (c c' : Chunk) (axis : Nat)
    (hlen : q.length = c'.embedding.length) (haxis : axis < q.length)
    (hside : axKey axis c' ≤ axKey axis c)
    (hdiff : 0 ≤ q.getD axis 0 - c.embedding.getD axis 0) :
    |q.getD axis 0 - c.embedding.getD axis 0| ≤ edist q c' := by
  have h1 := axis_gap_le_edist q c' axis hlen.symm haxis
  have h3 := hside
  simp only [axKey] at h3
  have h2 : |q.getD axis 0 - c.embedding.getD axis 0|
      ≤ |q.getD axis 0 - c'.embedding.getD axis 0| := by
    rw [abs_of_nonneg hdiff]
    calc q.getD axis 0 - c.embedding.getD axis 0
        ≤ q.getD axis 0 - c'.embedding.getD axis 0 := by linarith
      _ ≤ |q.getD axis 0 - c'.embedding.getD axis 0| := le_abs_self _
  exact le_trans h2 h1

/-- One node visit of the KD-tree search realises the `k`-smallest selection
on the distance multisets, under the euclidean metric. -/
theorem visit_sel (q : List ℝ) (k : Nat) (hk : 1 ≤ k) (hq : sumSq q ≠ 0)
    (c : Chunk) (hlen : q.length = c.embedding.length) (hc : sumSq c.embedding ≠ 0)
    (best : List SearchHit) (hs : best.Sorted hitLe) (hl : best.length ≤ k) :
    distMult (visitChunk q k "euclidean" c best)
      = sel k (distMult best + {edist q c}) := by
  have hsing : distMult [(⟨c, edist q c, 1 / (1 + edist q c)⟩ : SearchHit)]
      = ({edist q c} : Multiset ℝ) := by
    simp [distMult]
  rw [visitChunk, calcSim_edist q c hq hc hlen]
  dsimp only
  by_cases h1 : best.length < k
  · rw [if_pos h1]
    rw [distMult_perm (List.perm_insertionSort hitLe _), distMult_append, hsing,
      sel_of_card_le k _ (by
        rw [Multiset.card_add, distMult_card, Multiset.card_singleton]
        omega)]
  · rw [if_neg h1]
    have hlenk : best.length = k := by omega
    have hne : best ≠ [] := by
      intro h0
      rw [h0] at hlenk
      simp at hlenk
      omega
    have hdss : (best.map SearchHit.distance).Sorted (· ≤ ·) := dist_map_sorted hs
    have hdsne : best.map SearchHit.distance ≠ [] := by simp [hne]
    have hdsl : (best.map SearchHit.distance).length = k := by
      rw [List.length_map]
      exact hlenk
    have hgl : (best.map SearchHit.distance).getLast hdsne = worstDistance best := by
      rw [map_dist_getLast best hne, ← worstDistance_eq best hne]
    by_cases h2 : edist q c < worstDistance best
    · rw [if_pos h2]
      have hlt : edist q c < (best.map SearchHit.distance).getLast hdsne :=
        lt_of_lt_of_eq h2 hgl.symm
      rw [distMult_perm (List.perm_insertionSort hitLe _), distMult_append, hsing,
        show distMult best = (↑(best.map SearchHit.distance) : Multiset ℝ) from rfl,
        sel_insert_full k _ hdss hdsne hdsl (edist q c) hlt]
      rw [show distMult best.dropLast
            = (↑((best.map SearchHit.distance).dropLast) : Multiset ℝ) from by
          rw [distMult, List.map_dropLast],
        Multiset.coe_eq_coe.mpr (List.perm_orderedInsert _ _ _),
        ← Multiset.cons_coe, ← Multiset.singleton_add, add_comm]
    · rw [if_neg h2]
      push_neg at h2
      have hge : (best.map SearchHit.distance).getLast hdsne ≤ edist q c := by
        rw [hgl]
        exact h2
      rw [show distMult best = (↑(best.map SearchHit.distance) : Multiset ℝ) from rfl,
        sel_insert_skip k _ hdss hdsne hdsl (edist q c) hge]

/-- The bounded best-first KD-tree descent realises the `k`-smallest selection
of the whole subtree's distance multiset, given split well-formedness and the
euclidean metric (where the axis-gap prune bound is sound). -/
theorem searchNode_sel (q : List ℝ) (k : Nat) (hk : 1 ≤ k) (hq : sumSq q ≠ 0)
    (d : Nat) (hd : q.length = d) :
    ∀ T : KDTree, kdWF d T →
      (∀ c' ∈ T.chunks, q.length = c'.embedding.length ∧ sumSq c'.embedding ≠ 0) →
      ∀ best : List SearchHit, best.Sorted hitLe → best.length ≤ k →
      distMult (searchNode q k "euclidean" T best)
        = sel k (distMult best + ↑(T.chunks.map (edist q))) := by
  intro T
  induction T with
  | leaf =>
    intro _ _ best hs hl
    simp only [searchNode, KDTree.chunks, List.map_nil, Multiset.coe_nil, add_zero]
    rw [sel_of_card_le k _ (by rw [distMult_card]; exact hl)]
  | node l c axis r ihl ihr =>
    intro hwf hcond best hs hl
    simp only [kdWF] at hwf
    obtain ⟨haxis, hlsplit, hrsplit, hwl, hwr⟩ := hwf
    simp only [KDTree.chunks] at hcond ⊢
    have hcc := hcond c (List.mem_append_right _ (List.mem_cons_self _ _))
    have hcl : ∀ c' ∈ l.chunks, q.length = c'.embedding.length ∧
        sumSq c'.embedding ≠ 0 :=
      fun c' h => hcond c' (List.mem_append_left _ h)
    have hcr : ∀ c' ∈ r.chunks, q.length = c'.embedding.length ∧
        sumSq c'.embedding ≠ 0 :=
      fun c' h => hcond c' (List.mem_append_right _ (List.mem_cons_of_mem _ h))
    have hv := visit_sel q k hk hq c hcc.1 hcc.2 best hs hl
    have hvs := visitChunk_sorted q k "euclidean" c best hs
    have hvl := visitChunk_length_le q k "euclidean" c best hk hl
    have hq_axis : axis < q.length := by omega
    simp only [searchNode]
    by_cases hdiff : q.getD axis 0 - c.embedding.getD axis 0 ≤ 0
    · rw [if_pos hdiff]
      have hL := ihl hwl hcl (visitChunk q k "euclidean" c best) hvs hvl
      obtain ⟨hLs, hLl⟩ := searchNode_invariant q k "euclidean" hk l
        (visitChunk q k "euclidean" c best) hvs hvl
      by_cases hc2 : (searchNode q k "euclidean" l
            (visitChunk q k "euclidean" c best)).length < k ∨
          |q.getD axis 0 - c.embedding.getD axis 0| <
            worstDistance (searchNode q k "euclidean" l
              (visitChunk q k "euclidean" c best))
      · rw [if_pos hc2]
        have hR := ihr hwr hcr (searchNode q k "euclidean" l
          (visitChunk q k "euclidean" c best)) hLs hLl
        rw [hR, hL, hv, sel_absorb, add_assoc, sel_absorb]
        congr 1
        rw [List.map_append, List.map_cons, ← Multiset.coe_add,
          ← Multiset.cons_coe, ← Multiset.singleton_add]
        abel
      · rw [if_neg hc2]
        push_neg at hc2
        obtain ⟨hfull, hworst2⟩ := hc2
        have hlenB2 : (searchNode q k "euclidean" l
            (visitChunk q k "euclidean" c best)).length = k := le_antisymm hLl hfull
        have hneB2 : searchNode q k "euclidean" l
            (visitChunk q k "euclidean" c best) ≠ [] := by
          intro h0
          rw [h0] at hlenB2
          simp at hlenB2
          omega
        have hDB2 : distMult (searchNode q k "euclidean" l
            (visitChunk q k "euclidean" c best))
            = sel k ((distMult best + {edist q c}) + ↑(l.chunks.map (edist q))) := by
          rw [hL, hv, sel_absorb]
        have hprune : sel k (distMult (searchNode q k "euclidean" l
              (visitChunk q k "euclidean" c best)) + ↑(r.chunks.map (edist q)))
            = distMult (searchNode q k "euclidean" l
              (visitChunk q k "euclidean" c best)) := by
          refine sel_prune k _ _ (by rw [distMult_card]; exact hlenB2) ?_
          intro x hx y hy
          rw [Multiset.mem_coe, List.mem_map] at hx
          obtain ⟨c', hc', rfl⟩ := hx
          refine le_trans (mem_distMult_le_worst _ hLs hneB2 y hy)
            (le_trans hworst2 ?_)
          exact gap_le_edist_far q c c' axis (hcr c' hc').1 hq_axis
            (hrsplit c' hc') hdiff
        rw [← hprune, hDB2, sel_absorb]
        congr 1
        rw [List.map_append, List.map_cons, ← Multiset.coe_add,
          ← Multiset.cons_coe, ← Multiset.singleton_add]
        abel
    · rw [if_neg hdiff]
      push_neg at hdiff
      have hR := ihr hwr hcr (visitChunk q k "euclidean" c best) hvs hvl
      obtain ⟨hRs, hRl⟩ := searchNode_invariant q k "euclidean" hk r
        (visitChunk q k "euclidean" c best) hvs hvl
      by_cases hc2 : (searchNode q k "euclidean" r
            (visitChunk q k "euclidean" c best)).length < k ∨
          |q.getD axis 0 - c.embedding.getD axis 0| <
            worstDistance (searchNode q k "euclidean" r
              (visitChunk q k "euclidean" c best))
      · rw [if_pos hc2]
        have hL2 := ihl hwl hcl (searchNode q k "euclidean" r
          (visitChunk q k "euclidean" c best)) hRs hRl
        rw [hL2, hR, hv, sel_absorb, add_assoc, sel_absorb]
        congr 1
        rw [List.map_append, List.map_cons, ← Multiset.coe_add,
          ← Multiset.cons_coe, ← Multiset.singleton_add]
        abel
      · rw [if_neg hc2]
        push_neg at hc2
        obtain ⟨hfull, hworst2⟩ := hc2
        have hlenB2 : (searchNode q k "euclidean" r
            (visitChunk q k "euclidean" c best)).length = k := le_antisymm hRl hfull
        have hneB2 : searchNode q k "euclidean" r
            (visitChunk q k "euclidean" c best) ≠ [] := by
          intro h0
          rw [h0] at hlenB2
          simp at hlenB2
          omega
        have hDB2 : distMult (searchNode q k "euclidean" r
            (visitChunk q k "euclidean" c best))
            = sel k ((distMult best + {edist q c}) + ↑(r.chunks.map (edist q))) := by
          rw [hR, hv, sel_absorb]
        have hprune : sel k (distMult (searchNode q k "euclidean" r
              (visitChunk q k "euclidean" c best)) + ↑(l.chunks.map (edist q)))
            = distMult (searchNode q k "euclidean" r
              (visitChunk q k "euclidean" c best)) := by
          refine sel_prune k _ _ (by rw [distMult_card]; exact hlenB2) ?_
          intro x hx y hy
          rw [Multiset.mem_coe, List.mem_map] at hx
          obtain ⟨c', hc', rfl⟩ := hx
          refine le_trans (mem_distMult_le_worst _ hRs hneB2 y hy)
            (le_trans hworst2 ?_)
          exact gap_le_edist_far_left q c c' axis (hcl c' hc').1 hq_axis
            (hlsplit c' hc') (le_of_lt hdiff)
        rw [← hprune, hDB2, sel_absorb]
        congr 1
        rw [List.map_append, List.map_cons, ← Multiset.coe_add,
          ← Multiset.cons_coe, ← Multiset.singleton_add]
        abel

/-- On all-valid inputs the linear scan's per-chunk `filterMap` drops nothing:
every kernel call under "euclidean" succeeds. -/
theorem bf_filterMap_map (q : List ℝ) :
    ∀ C : List Chunk,
      (∀ c ∈ C, q.length = c.embedding.length ∧ sumSq c.embedding ≠ 0) →
      sumSq q ≠ 0 →
      C.filterMap (fun c =>
        match calcSim q c.embedding "euclidean" with
        | .ok (d, sim) => some (⟨c, d, sim⟩ : SearchHit)
        | .error _ => none)
      = C.map (fun c => (⟨c, edist q c, 1 / (1 + edist q c)⟩ : SearchHit)) := by
  intro C
  induction C with
  | nil => intro _ _; rfl
  | cons c0 rest ih =>
    intro hall hq
    rw [List.filterMap_cons, List.map_cons]
    have h0 := hall c0 (List.mem_cons_self _ _)
    rw [calcSim_edist q c0 hq h0.2 h0.1]
    dsimp only
    rw [ih (fun c h => hall c (List.mem_cons_of_mem _ h)) hq]

theorem map_dist_insertionSort (hits : List SearchHit) :
    (List.insertionSort hitLe hits).map SearchHit.distance
      = (↑(hits.map SearchHit.distance) : Multiset ℝ).sort (· ≤ ·) := by
  refine (List.eq_of_perm_of_sorted ?_ (Multiset.sort_sorted _ _)
    (dist_map_sorted (List.sorted_insertionSort hitLe hits))).symm
  apply Multiset.coe_eq_coe.mp
  rw [Multiset.sort_eq]
  exact Multiset.coe_eq_coe.mpr
    (((List.perm_insertionSort hitLe hits).map SearchHit.distance).symm)

/-- Sorting by distance and truncating realises the `k`-smallest selection on
the distance multiset. -/
theorem distMult_take_sorted (hits : List SearchHit) (k : Nat) :
    distMult ((List.insertionSort hitLe hits).take k) = sel k (distMult hits) := by
  rw [distMult, List.map_take, map_dist_insertionSort]
  rfl

/-- The state installed by a successful KD-tree build. -/
theorem kdIndexRun_ok_fields (ks0 st' : KDState) (C : List Chunk)
    (h : kdIndexRun ks0 C = (st', none)) :
    st'.indexedChunks = C ∧ st'.isBuilt = true ∧
    (C = [] → st'.root = .leaf) ∧
    (∀ c0 rest, C = c0 :: rest →
      st'.dimensions = c0.embedding.length ∧ c0.embedding.length ≠ 0 ∧
      st'.root = buildTree c0.embedding.length C 0 ∧
      (∀ c ∈ C, c.embedding.length = c0.embedding.length)) := by
  cases C with
  | nil =>
    rw [kdIndexRun] at h
    cases h
    exact ⟨rfl, rfl, fun _ => rfl, fun c0 rest hc => List.noConfusion hc⟩
  | cons c0 rest =>
    rw [kdIndexRun] at h
    by_cases hall : ((c0 :: rest).all
        fun c => c.embedding.length = c0.embedding.length) = true
    · rw [if_pos hall] at h
      by_cases hd : c0.embedding.length = 0
      · rw [if_pos hd] at h
        exact absurd (congrArg Prod.snd h) (by simp)
      · rw [if_neg hd] at h
        cases h
        refine ⟨rfl, rfl, fun h0 => absurd h0 (List.cons_ne_nil c0 rest), ?_⟩
        intro c0' rest' hc
        injection hc with h1 h2
        subst h1
        subst h2
        refine ⟨rfl, hd, rfl, ?_⟩
        intro c hc
        have h2 := List.all_eq_true.mp hall c hc
        simpa using h2
    · rw [if_neg hall] at h
      exact absurd (congrArg Prod.snd h) (by simp)

/-- C2 (corrected): under the euclidean metric — where the axis-gap prune
bound is sound — the KD-tree search and the linear search return the same
multiset of distances for every uniform-dimension chunk set with nonzero
embedding norms, every nonzero-norm query of matching dimension and every
k ≥ 1 (ties may still be resolved differently, so chunk ids can differ;
under cosine even the distance multisets differ, see the counterexample). -/
theorem claim2_kdtree_linear_distances (ks0 : KDState) (s0 : BFState)
    (st' : KDState) (C : List Chunk) (q : List ℝ) (k : Nat)
    (kdres linres : List SearchHit)
    (hk : 1 ≤ k) (hq : sumSq q ≠ 0)
    (hdims : ∀ c ∈ C, c.embedding.length = q.length)
    (hnz : ∀ c ∈ C, sumSq c.embedding ≠ 0)
    (hbuild : kdIndexRun ks0 C = (st', none))
    (hkd : kdSearch st' q k (some "euclidean") = .ok kdres)
    (hlin : bfSearch (bfIndex s0 C) q k (some "euclidean") = .ok linres) :
    distMult kdres = distMult linres := by
  obtain ⟨hic, hib, hleaf, hcons⟩ := kdIndexRun_ok_fields ks0 st' C hbuild
  cases C with
  | nil =>
    rw [kdSearch, if_pos (Or.inr (by rw [hleaf rfl]; rfl))] at hkd
    cases hkd
    have hbfc : (bfIndex s0 []).isBuilt = false ∨
        (bfIndex s0 []).indexedChunks.isEmpty = true := Or.inr rfl
    rw [bfSearch, if_pos hbfc] at hlin
    cases hlin
    rfl
  | cons c0 rest =>
    obtain ⟨hdim_eq, hd0, hroot, hall⟩ := hcons c0 rest rfl
    have hq0 : c0.embedding.length = q.length := hdims c0 (List.mem_cons_self _ _)
    have hqlen : q.length = st'.dimensions := by rw [hdim_eq, hq0]
    have hqne : q ≠ [] := by
      intro h0
      apply hq
      rw [h0]
      rfl
    rw [kdSearch] at hkd
    rw [if_neg (by
      rw [hib, hroot]
      simp [buildTree_ne_leaf c0.embedding.length (c0 :: rest) 0 (by simp)])] at hkd
    rw [if_neg hqne] at hkd
    rw [if_neg (fun h2 => h2 hqlen)] at hkd
    have hmin : ¬ (min k st'.indexedChunks.length = 0) := by
      rw [hic, List.length_cons]
      omega
    rw [if_neg hmin] at hkd
    cases hkd
    rw [bfSearch] at hlin
    rw [if_neg (by simp [bfIndex])] at hlin
    rw [if_neg hqne] at hlin
    rw [if_neg (by simp only [bfIndex, List.length_cons]; omega)] at hlin
    cases hlin
    simp only [Option.getD_some, bfIndex]
    rw [hic, hroot]
    have hperm := buildTree_chunks_perm c0.embedding.length (c0 :: rest).length
      (c0 :: rest) le_rfl 0
    have hwf := buildTree_wf c0.embedding.length (by omega) (c0 :: rest).length
      (c0 :: rest) le_rfl 0
    have hcond : ∀ c' ∈ (buildTree c0.embedding.length (c0 :: rest) 0).chunks,
        q.length = c'.embedding.length ∧ sumSq c'.embedding ≠ 0 :=
      fun c' hc' => ⟨(hdims c' (hperm.mem_iff.mp hc')).symm,
        hnz c' (hperm.mem_iff.mp hc')⟩
    have hk' : 1 ≤ min k (c0 :: rest).length := by
      rw [List.length_cons]
      omega
    rw [searchNode_sel q (min k (c0 :: rest).length) hk' hq c0.embedding.length
      hq0.symm (buildTree c0.embedding.length (c0 :: rest) 0) hwf hcond []
      (by simp [List.Sorted]) (by simp)]
    rw [bf_filterMap_map q (c0 :: rest)
      (fun c h => ⟨(hdims c h).symm, hnz c h⟩) hq]
    rw [distMult_take_sorted]
    rw [show distMult ([] : List SearchHit) = 0 from rfl, zero_add]
    congr 1
    rw [distMult, List.map_map]
    exact Multiset.coe_eq_coe.mpr (hperm.map (edist q))

theorem w2_norm_q : Real.sqrt (sumSq [(7 : ℝ)]) = 7 :=
  sqrt_eval (by norm_num) (by norm_num [sumSq])

theorem w2_norm_c : Real.sqrt (sumSq wchunk.embedding) = 3 :=
  sqrt_eval (by norm_num) (by norm_num [sumSq, wchunk])

theorem w2_calc : calcSim [(7 : ℝ)] wchunk.embedding "euclidean" = .ok (4, 1/5) := by
  rw [calcSim_euclidean _ _ (by rw [w2_norm_q]; norm_num)
    (by rw [w2_norm_c]; norm_num) (by simp [wchunk])]
  rw [show Real.sqrt (sumSq (subV [(7 : ℝ)] wchunk.embedding)) = 4 from
    sqrt_eval (by norm_num) (by norm_num [sumSq, subV, wchunk])]
  norm_num

theorem w2_kd_build : kdIndexRun {} [wchunk]
    = (⟨"cosine", [wchunk], true, .node .leaf wchunk 0 .leaf, 1⟩, none) := by
  simp only [kdIndexRun]
  rw [if_pos (by decide), if_neg (by decide)]
  rw [show wchunk.embedding.length = 1 from rfl, buildTree_single 1 0 wchunk]

theorem w2_visit : visitChunk [(7 : ℝ)] 1 "euclidean" wchunk []
    = [⟨wchunk, 4, 1/5⟩] := by
  rw [visitChunk, w2_calc]
  dsimp only
  rw [if_pos (by norm_num)]
  simp [List.insertionSort, List.orderedInsert]

theorem w2_search : searchNode [(7 : ℝ)] 1 "euclidean" (.node .leaf wchunk 0 .leaf) []
    = [⟨wchunk, 4, 1/5⟩] := by
  rw [searchNode]
  dsimp only
  rw [w2_visit]
  rw [if_neg (by norm_num [wchunk])]
  simp only [searchNode]
  split
  · rfl
  · rfl

theorem w2kd_eval : kdSearch (kdIndexRun {} [wchunk]).1 [(7 : ℝ)] 2 (some "euclidean")
    = .ok [⟨wchunk, 4, 1/5⟩] := by
  rw [w2_kd_build]
  rw [kdSearch]
  rw [if_neg (by simp [KDTree.isLeaf])]
  rw [if_neg (by simp)]
  rw [if_neg (by simp)]
  rw [if_neg (by simp)]
  simp only [Option.getD_some]
  rw [show min 2 ([wchunk].length) = 1 from rfl]
  exact congrArg Except.ok w2_search

theorem w2bf_eval : bfSearch (bfIndex {} [wchunk]) [(7 : ℝ)] 2 (some "euclidean")
    = .ok [⟨wchunk, 4, 1/5⟩] := by
  rw [bfSearch]
  rw [if_neg (by simp [bfIndex])]
  rw [if_neg (by simp)]
  rw [if_neg (by simp [bfIndex])]
  have hfm : List.filterMap (fun c =>
      match calcSim [(7 : ℝ)] c.embedding ((some "euclidean").getD
          (bfIndex {} [wchunk]).similarityMetric) with
      | .ok (d, sim) => some (⟨c, d, sim⟩ : SearchHit)
      | .error _ => none) (bfIndex {} [wchunk]).indexedChunks
      = [⟨wchunk, 4, 1/5⟩] := by
    simp only [bfIndex, Option.getD_some]
    simp only [List.filterMap_cons, List.filterMap_nil, w2_calc]
  rw [hfm]
  have hsort : List.insertionSort hitLe [(⟨wchunk, 4, 1/5⟩ : SearchHit)]
      = [⟨wchunk, 4, 1/5⟩] := by
    simp [List.insertionSort, List.orderedInsert]
  rw [hsort]
  rfl

/-- Witness for the corrected C2: on the one-dimensional chunk (3) with query
(7) and k = 2 under the euclidean metric, the KD-tree and the linear index
both return the single hit at distance 4, and the theorem yields the equality
of the distance multisets. -/
theorem claim2_witness :
    kdSearch (kdIndexRun {} [wchunk]).1 [(7 : ℝ)] 2 (some "euclidean")
      = .ok [⟨wchunk, 4, 1/5⟩] ∧
    bfSearch (bfIndex {} [wchunk]) [(7 : ℝ)] 2 (some "euclidean")
      = .ok [⟨wchunk, 4, 1/5⟩] ∧
    distMult [(⟨wchunk, 4, 1/5⟩ : SearchHit)]
      = distMult [(⟨wchunk, 4, 1/5⟩ : SearchHit)] :=
  ⟨w2kd_eval, w2bf_eval,
    claim2_kdtree_linear_distances {} {} (kdIndexRun {} [wchunk]).1 [wchunk]
      [(7 : ℝ)] 2 [⟨wchunk, 4, 1/5⟩] [⟨wchunk, 4, 1/5⟩]
      (by norm_num)
      (by norm_num [sumSq])
      (by intro c hc; rw [List.mem_singleton] at hc; subst hc; rfl)
      (by intro c hc; rw [List.mem_singleton] at hc; subst hc;
          norm_num [sumSq, wchunk])
      (by rfl)
      w2kd_eval w2bf_eval⟩

end VecDB
